import Mathlib

/-!
Verification development for the Texas Hold'em poker core of the repository:
the `PokerGameEngine` class (hand evaluator, betting actions, blinds, dealer
assignment, showdown) and `PokerRoomManager.sanitizeRoomForBroadcast`.

The JavaScript source is embedded shallowly:
* JS numbers used for chips/bets/pot/scores become `Int` (the code only ever
  does integer arithmetic on them: `Math.floor`, `%`, `+`, `-`, `min`).
* JS `throw` becomes `Except (String × Room) Room`; the error carries the room
  state as it stands at the moment of the throw, so that "state unchanged on
  error" is a real statement about where throws sit relative to mutations.
* In-place mutation of a player object found by `Array.prototype.find` becomes
  replacement of the first list element with the matching id.
* `Object.entries` enumeration order is modelled faithfully: array-index-like
  keys (the ranks "2".."10") come first in ascending numeric order, the other
  keys ("J","Q","K","A", suit names) follow in insertion order.
* `Array.prototype.sort` with a numeric comparator is a stable sort; it is
  modelled by a stable insertion sort.
-/

set_option maxHeartbeats 1000000

namespace GamblingBack

/-! ### Data model -/

/-- A card as produced by `createDeck`: `{ suit, rank }` with string fields. -/
structure Card where
  rank : String
  suit : String
deriving DecidableEq, Repr

/-- A seated player (the fields of the player objects `PokerGameEngine` reads
and writes during a hand). -/
structure Player where
  id : String
  chips : Int
  bet : Int
  hand : List Card
  folded : Bool
  allIn : Bool
  status : String
deriving DecidableEq, Repr

/-- The room object threaded through `PokerGameEngine` (the fields the engine
reads and writes; `updatedAt` is a wall-clock timestamp and is not modelled). -/
structure Room where
  players : List Player
  pot : Int
  currentBet : Int
  minBet : Int
  phase : String
  status : String
  currentTurn : Option String
  lastRaiser : Option String
  playersActedThisRound : List String
  dealerIndex : Nat
  smallBlind : Option String
  bigBlind : Option String
  communityCards : List Card
  deck : List Card
deriving DecidableEq, Repr

/-- The card records built at the top of `evaluateHand`:
`{ rank, suit, value: getRankValue(rank) }`. -/
structure ECard where
  rank : String
  suit : String
  value : Int
deriving DecidableEq, Repr

/-- The objects returned by the `check*` hand-evaluation methods. -/
structure HandValue where
  name : String
  score : Int
  cards : List ECard
deriving DecidableEq, Repr

def defaultECard : ECard := ⟨"", "", 0⟩

def defaultPlayer : Player := ⟨"", 0, 0, [], false, false, ""⟩

def defaultCard : Card := ⟨"", ""⟩

/-! ### Evaluator utilities -/

/-- `getRankValue`: the rank-string to numeric-value table; unknown ranks give
`0` (the `|| 0` fallback). -/
def getRankValue (rank : String) : Int :=
  if rank = "2" then 2 else if rank = "3" then 3 else if rank = "4" then 4
  else if rank = "5" then 5 else if rank = "6" then 6 else if rank = "7" then 7
  else if rank = "8" then 8 else if rank = "9" then 9 else if rank = "10" then 10
  else if rank = "J" then 11 else if rank = "Q" then 12 else if rank = "K" then 13
  else if rank = "A" then 14 else 0

/-- One step of a stable insertion sort, descending by `key` (models the JS
stable `sort((a, b) => key(b) - key(a))`). -/
def insertDescBy (key : α → Int) (x : α) : List α → List α
  | [] => [x]
  | y :: ys => if key y ≤ key x then x :: y :: ys else y :: insertDescBy key x ys

/-- Stable sort, descending by `key`. -/
def sortDescBy (key : α → Int) : List α → List α
  | [] => []
  | x :: xs => insertDescBy key x (sortDescBy key xs)

/-- `groupByRank`/`groupBySuit` build a JS object by pushing each card under
its key; insertion order of keys is the order of first occurrence. -/
def addToGroups (key : ECard → String) (gs : List (String × List ECard)) (c : ECard) :
    List (String × List ECard) :=
  match gs with
  | [] => [(key c, [c])]
  | (k, g) :: rest =>
    if k = key c then (k, g ++ [c]) :: rest else (k, g) :: addToGroups key rest c

def groupBy (key : ECard → String) (cards : List ECard) : List (String × List ECard) :=
  cards.foldl (addToGroups key) []

def groupByRank (cards : List ECard) : List (String × List ECard) :=
  groupBy (fun c => c.rank) cards

def groupBySuit (cards : List ECard) : List (String × List ECard) :=
  groupBy (fun c => c.suit) cards

/-- Whether a JS object key is array-index-like (a canonical numeric string);
such keys are enumerated first, in ascending numeric order. -/
def isIndexKey (s : String) : Bool :=
  match s.toList with
  | [] => false
  | c :: rest => (c :: rest).all (fun ch => ch.isDigit) && (c != '0' || rest.isEmpty)

/-- Numeric value of an array-index-like key (String.toNat on all-digit keys). -/
def keyNum (s : String) : Nat :=
  s.toList.foldl (fun n c => n * 10 + (c.toNat - Char.toNat (Char.ofNat 48))) 0

def insertAscByNum (x : String × List ECard) :
    List (String × List ECard) → List (String × List ECard)
  | [] => [x]
  | y :: ys => if keyNum x.1 < keyNum y.1 then x :: y :: ys else y :: insertAscByNum x ys

def sortAscByNum : List (String × List ECard) → List (String × List ECard)
  | [] => []
  | x :: xs => insertAscByNum x (sortAscByNum xs)

/-- `Object.entries` on a grouping object: array-index-like keys ascending,
then the remaining keys in insertion order. -/
def entriesOf (gs : List (String × List ECard)) : List (String × List ECard) :=
  sortAscByNum (gs.filter (fun e => isIndexKey e.1)) ++ gs.filter (fun e => !isIndexKey e.1)

/-- `reduce((sum, card, index) => sum + card.value * Math.pow(10, top - index), 0)`. -/
def kickerWeight (top : Nat) (cards : List ECard) : Int :=
  (cards.enum.map (fun ic => ic.2.value * (10 : Int) ^ (top - ic.1))).sum

/-! ### The `check*` evaluation methods -/

def checkFlush (cards : List ECard) : Option HandValue :=
  match (entriesOf (groupBySuit cards)).find? (fun e => decide (5 ≤ e.2.length)) with
  | none => none
  | some e =>
    let bestFlushCards := e.2.take 5
    some ⟨"Flush", 5000 + kickerWeight 4 bestFlushCards, bestFlushCards⟩

/-- `isConsecutive`: each value is the previous one minus 1. -/
def isConsecutive : List Int → Bool
  | [] => true
  | [_] => true
  | a :: b :: rest => b == a - 1 && isConsecutive (b :: rest)

/-- The `for (i = 0; i <= len - 5; i++)` window scan of `checkStraight`. -/
def straightWindows : List Int → Option (List Int)
  | [] => none
  | v :: rest =>
    if (v :: rest).length < 5 then none
    else if isConsecutive ((v :: rest).take 5) then some ((v :: rest).take 5)
    else straightWindows rest

/-- `[...new Set(l)]`: deduplication keeping first occurrences. -/
def dedupFirst (l : List Int) : List Int :=
  l.foldl (fun acc v => if v ∈ acc then acc else acc ++ [v]) []

def checkStraight (cards : List ECard) : Option HandValue :=
  let uniqueValues := sortDescBy (fun v => v) (dedupFirst (cards.map (fun c => c.value)))
  match straightWindows uniqueValues with
  | some seq =>
    some ⟨"Straight", 4000 + seq.headD 0,
      seq.map (fun v => (cards.find? (fun c => c.value == v)).getD defaultECard)⟩
  | none =>
    if uniqueValues.contains 14 && uniqueValues.contains 5 && uniqueValues.contains 4 &&
        uniqueValues.contains 3 && uniqueValues.contains 2 then
      some ⟨"Straight", 4000 + 5,
        ([5, 4, 3, 2, 14] : List Int).map
          (fun v => (cards.find? (fun c => c.value == v)).getD defaultECard)⟩
    else none

def checkStraightFlush (cards : List ECard) : Option HandValue :=
  match checkFlush cards with
  | none => none
  | some flush =>
    match checkStraight flush.cards with
    | none => none
    | some straight =>
      some ⟨"Straight Flush", 8000 + (straight.cards.headD defaultECard).value, straight.cards⟩

def checkRoyalFlush (cards : List ECard) : Option HandValue :=
  match checkStraightFlush cards with
  | some straightFlush =>
    if (straightFlush.cards.headD defaultECard).value == 14 then
      some ⟨"Royal Flush", 9000 + (straightFlush.cards.headD defaultECard).value,
        straightFlush.cards⟩
    else none
  | none => none

def checkFourOfAKind (cards : List ECard) : Option HandValue :=
  match (entriesOf (groupByRank cards)).find? (fun e => e.2.length == 4) with
  | none => none
  | some e =>
    let v := (e.2.headD defaultECard).value
    let kicker := cards.find? (fun c => c.value != v)
    some ⟨"Four of a Kind", 7000 + v,
      match kicker with
      | some k => e.2 ++ [k]
      | none => e.2⟩

/-- `checkFullHouse`: the pair group must be a different entry than the trips
group; in the source this is an object-identity test on the group arrays,
which (keys being unique) is the same as comparing the keys. -/
def checkFullHouse (cards : List ECard) : Option HandValue :=
  let groups := entriesOf (groupByRank cards)
  let threeOfAKind := groups.find? (fun e => e.2.length == 3)
  let pair := groups.find? (fun e =>
    decide (2 ≤ e.2.length) &&
      match threeOfAKind with
      | some t => e.1 != t.1
      | none => true)
  match threeOfAKind, pair with
  | some t, some p =>
    some ⟨"Full House",
      6000 + (t.2.headD defaultECard).value * 100 + (p.2.headD defaultECard).value,
      t.2 ++ p.2.take 2⟩
  | _, _ => none

def checkThreeOfAKind (cards : List ECard) : Option HandValue :=
  match (entriesOf (groupByRank cards)).find? (fun e => e.2.length == 3) with
  | none => none
  | some e =>
    let v := (e.2.headD defaultECard).value
    let kickers := (cards.filter (fun c => c.value != v)).take 2
    some ⟨"Three of a Kind", 3000 + v * 100 + (kickers.map (fun c => c.value)).sum,
      e.2 ++ kickers⟩

def checkTwoPair (cards : List ECard) : Option HandValue :=
  let pairs := (entriesOf (groupByRank cards)).filter (fun e => decide (2 ≤ e.2.length))
  if pairs.length < 2 then none
  else
    let sorted := sortDescBy (fun e => (e.2.headD defaultECard).value) pairs
    let highPairCards := (sorted.headD ("", [])).2
    let lowPairCards := ((sorted.drop 1).headD ("", [])).2
    let hv := (highPairCards.headD defaultECard).value
    let lv := (lowPairCards.headD defaultECard).value
    let kicker := cards.find? (fun c => c.value != hv && c.value != lv)
    let handCards := highPairCards.take 2 ++ lowPairCards.take 2 ++
      (match kicker with | some k => [k] | none => [])
    some ⟨"Two Pair", 2000 + hv * 100 + lv * 10 + ((kicker.map (fun c => c.value)).getD 0),
      handCards⟩

def checkPair (cards : List ECard) : Option HandValue :=
  match (entriesOf (groupByRank cards)).find? (fun e => decide (2 ≤ e.2.length)) with
  | none => none
  | some e =>
    let v := (e.2.headD defaultECard).value
    let kickers := (cards.filter (fun c => c.value != v)).take 3
    some ⟨"Pair", 1000 + v * 100 + kickerWeight 2 kickers, e.2.take 2 ++ kickers⟩

/-- `checkHighCard` unconditionally returns a hand value. -/
def checkHighCard (cards : List ECard) : HandValue :=
  let bestCards := cards.take 5
  ⟨"High Card", kickerWeight 4 bestCards, bestCards⟩

def toECard (c : Card) : ECard := ⟨c.rank, c.suit, getRankValue c.rank⟩

/-- `evaluateHand(playerHand, communityCards)`: the `||`-chain over the check
methods, ending in the always-successful `checkHighCard`. -/
def evaluateHand (playerHand communityCards : List Card) : Option HandValue :=
  let allCards := playerHand ++ communityCards
  if allCards.length < 5 then some ⟨"Incomplete Hand", 0, []⟩
  else
    let sortedCards := sortDescBy (fun c => c.value) (allCards.map toECard)
    ((((((((checkRoyalFlush sortedCards).orElse
      (fun _ => checkStraightFlush sortedCards)).orElse
      (fun _ => checkFourOfAKind sortedCards)).orElse
      (fun _ => checkFullHouse sortedCards)).orElse
      (fun _ => checkFlush sortedCards)).orElse
      (fun _ => checkStraight sortedCards)).orElse
      (fun _ => checkThreeOfAKind sortedCards)).orElse
      (fun _ => checkTwoPair sortedCards)).orElse
      (fun _ => checkPair sortedCards) |>.orElse
      (fun _ => some (checkHighCard sortedCards))

/-! ### Action processing

JS mutates the player object returned by `players.find(p => p.id === ...)`;
this is modelled by replacing the first player in the list whose id matches. -/

def updateFirstPlayer (ps : List Player) (pid : String) (f : Player → Player) : List Player :=
  match ps with
  | [] => []
  | p :: rest => if p.id = pid then f p :: rest else p :: updateFirstPlayer rest pid f

/-- `processCall`: never throws; caps the call at the player's chips. -/
def processCall (room : Room) (player : Player) : Room :=
  let callAmount := room.currentBet - player.bet
  if callAmount ≤ 0 then room
  else
    let actualCall := min callAmount player.chips
    let p1 := { player with chips := player.chips - actualCall, bet := player.bet + actualCall }
    let p2 := if p1.chips = 0 then { p1 with allIn := true } else p1
    { room with players := updateFirstPlayer room.players player.id (fun _ => p2),
                pot := room.pot + actualCall }

/-- `processBet`; all three throws precede every mutation. -/
def processBet (room : Room) (player : Player) (amount : Int) : Except (String × Room) Room :=
  if 0 < room.currentBet then .error ("Cannot bet when there is already a bet", room)
  else if amount < room.minBet then .error ("Bet must be at least the minimum", room)
  else if player.chips < amount then .error ("Not enough chips", room)
  else
    let p1 := { player with chips := player.chips - amount, bet := amount }
    let p2 := if p1.chips = 0 then { p1 with allIn := true } else p1
    .ok { room with players := updateFirstPlayer room.players player.id (fun _ => p2),
                    pot := room.pot + amount, currentBet := amount,
                    lastRaiser := some player.id, playersActedThisRound := [player.id] }

/-- `processRaise`; both throws precede every mutation. -/
def processRaise (room : Room) (player : Player) (raiseAmount : Int) :
    Except (String × Room) Room :=
  let totalBet := room.currentBet + raiseAmount
  if player.chips + player.bet < totalBet then .error ("Not enough chips", room)
  else if raiseAmount < room.minBet then .error ("Raise must be at least the minimum", room)
  else
    let additionalAmount := totalBet - player.bet
    let p1 := { player with chips := player.chips - additionalAmount, bet := totalBet }
    let p2 := if p1.chips = 0 then { p1 with allIn := true } else p1
    .ok { room with players := updateFirstPlayer room.players player.id (fun _ => p2),
                    pot := room.pot + additionalAmount, currentBet := totalBet,
                    lastRaiser := some player.id, playersActedThisRound := [player.id] }

/-- `processAllIn`: moves all chips in; re-opens the betting only when the new
per-round committed amount exceeds `currentBet`. -/
def processAllIn (room : Room) (player : Player) : Except (String × Room) Room :=
  if player.chips ≤ 0 then .error ("No chips to go all-in with", room)
  else
    let allInAmount := player.chips
    let p1 := { player with bet := player.bet + allInAmount, chips := 0, allIn := true }
    let room1 := { room with pot := room.pot + allInAmount,
                             players := updateFirstPlayer room.players player.id (fun _ => p1) }
    if room.currentBet < p1.bet then
      .ok { room1 with currentBet := p1.bet, lastRaiser := some player.id,
                       playersActedThisRound := [player.id] }
    else .ok room1

/-- The `playersActedThisRound.push` at the end of `processPlayerAction`. -/
def addActed (room : Room) (playerId : String) : Room :=
  if playerId ∈ room.playersActedThisRound then room
  else { room with playersActedThisRound := room.playersActedThisRound ++ [playerId] }

/-- `processPlayerAction(room, playerId, action, amount)`. Errors carry the
room state at the moment of the throw. -/
def processPlayerAction (room : Room) (playerId : String) (action : String) (amount : Int) :
    Except (String × Room) Room :=
  match room.players.find? (fun p => p.id == playerId) with
  | none => .error ("Player not found", room)
  | some player =>
    if room.currentTurn ≠ some playerId then .error ("Not your turn", room)
    else if player.folded then .error ("Player has folded", room)
    else
      let applied : Except (String × Room) Room :=
        if action = "fold" then
          .ok { room with
            players := updateFirstPlayer room.players playerId (fun p => { p with folded := true }) }
        else if action = "check" then
          if player.bet < room.currentBet then
            .error ("Cannot check when there is a bet to call", room)
          else .ok room
        else if action = "call" then .ok (processCall room player)
        else if action = "bet" then processBet room player amount
        else if action = "raise" then processRaise room player amount
        else if action = "allin" then processAllIn room player
        else .error ("Invalid action", room)
      applied.map (fun r => addActed r playerId)

/-! ### Blinds and hand start -/

/-- `players.findIndex(p => p.id === room.smallBlind)` (`null` matches nobody). -/
def findIdxById (ps : List Player) (pid : Option String) : Option Nat :=
  ps.findIdx? (fun p => pid == some p.id)

/-- `postBlinds`: both `find`s run before any mutation; a missing small- or
big-blind player would crash in JS (`undefined.chips`), modelled as `none`. -/
def postBlinds (room : Room) : Option Room :=
  match findIdxById room.players room.smallBlind, findIdxById room.players room.bigBlind with
  | some sbIdx, some bbIdx =>
    let sbAmount := room.minBet.fdiv 2
    let bbAmount := room.minBet
    let sbPlayer := (room.players.get? sbIdx).getD defaultPlayer
    let sbPost := min sbAmount sbPlayer.chips
    let sb1 := { sbPlayer with chips := sbPlayer.chips - sbPost, bet := sbPost }
    let sb2 := if sb1.chips = 0 then { sb1 with allIn := true } else sb1
    let players1 := room.players.set sbIdx sb2
    let bbPlayer := (players1.get? bbIdx).getD defaultPlayer
    let bbPost := min bbAmount bbPlayer.chips
    let bb1 := { bbPlayer with chips := bbPlayer.chips - bbPost, bet := bbPost }
    let bb2 := if bb1.chips = 0 then { bb1 with allIn := true } else bb1
    some { room with players := players1.set bbIdx bb2, pot := room.pot + sbPost + bbPost,
                     currentBet := bb2.bet, lastRaiser := room.bigBlind }
  | _, _ => none

/-- `assignDealerAndBlinds`: note `dealerIndex = dealerIndex % activePlayers.length`
(the dealer button is reduced modulo the live-player count, not advanced). -/
def assignDealerAndBlinds (room : Room) : Option Room :=
  let activePlayers := room.players.filter (fun p => 0 < p.chips)
  if activePlayers.length < 2 then some room
  else
    let len := activePlayers.length
    let dealerIdx := room.dealerIndex % len
    let pair :=
      if len = 2 then
        ((activePlayers.getD dealerIdx defaultPlayer).id,
         (activePlayers.getD ((dealerIdx + 1) % len) defaultPlayer).id)
      else
        ((activePlayers.getD ((dealerIdx + 1) % len) defaultPlayer).id,
         (activePlayers.getD ((dealerIdx + 2) % len) defaultPlayer).id)
    postBlinds { room with dealerIndex := dealerIdx,
                           smallBlind := some pair.1, bigBlind := some pair.2 }

/-- One round of `dealHoleCards`'s inner loop: each player in order receives
the top card (`deck.pop()` takes from the end of the array) when available. -/
def dealRound (players : List Player) (deck : List Card) : List Player × List Card :=
  match players with
  | [] => ([], deck)
  | p :: rest =>
    if 0 < deck.length then
      let c := deck.getLast?.getD defaultCard
      let (ps, deckF) := dealRound rest deck.dropLast
      ({ p with hand := p.hand ++ [c] } :: ps, deckF)
    else
      let (ps, deckF) := dealRound rest deck
      (p :: ps, deckF)

def dealHoleCards (room : Room) : Room :=
  let r1 := dealRound room.players room.deck
  let r2 := dealRound r1.1 r1.2
  { room with players := r2.1, deck := r2.2 }

/-- The `while` search of `setFirstPlayerToAct`, with fuel `players.length`
(the loop breaks after coming full circle). -/
def searchActiveGo (players : List Player) (firstIdx : Nat) : Nat → Nat → Nat
  | cur, 0 => cur
  | cur, Nat.succ fuel =>
    let p := players.getD cur defaultPlayer
    if p.folded || p.allIn then
      let next := (cur + 1) % players.length
      if next = firstIdx then next else searchActiveGo players firstIdx next fuel
    else cur

def setFirstPlayerToAct (room : Room) : Room :=
  let activePlayers := room.players.filter (fun p => !p.folded && !p.allIn)
  if activePlayers.length = 0 then room
  else
    let len := room.players.length
    let firstIdx :=
      match room.players.findIdx? (fun p => room.bigBlind == some p.id) with
      | some i => (i + 1) % len
      | none => 0
    let idx := searchActiveGo room.players firstIdx firstIdx len
    { room with currentTurn := some ((room.players.getD idx defaultPlayer).id) }

/-- `startNewHand`: the shuffled deck is injected as a parameter (the source
builds it with `shuffleDeck(createDeck())`, driven by `Math.random`). `none`
models the thrown "Need at least 2 players" error or a crash in `postBlinds`. -/
def startNewHand (room : Room) (shuffledDeck : List Card) : Option Room :=
  if room.players.length < 2 then none
  else
    let room1 := { room with
      status := "playing", phase := "preflop", pot := 0, communityCards := [],
      currentBet := 0, lastRaiser := none, playersActedThisRound := [],
      players := room.players.map (fun p =>
        { p with hand := [], bet := 0, folded := false, allIn := false, status := "active" }),
      deck := shuffledDeck }
    match assignDealerAndBlinds room1 with
    | none => none
    | some room2 => some (setFirstPlayerToAct (dealHoleCards room2))

/-! ### Showdown -/

structure ShowResult where
  playerId : String
  hand : List Card
  handValue : HandValue
  score : Int
deriving DecidableEq, Repr

structure WinnerAward where
  playerId : String
  winAmount : Int
deriving DecidableEq, Repr

/-- The two shapes of object `processShowdown` returns. -/
inductive ShowdownOutcome where
  | singleWinner (winner : String) (winAmount : Int) (results : List ShowResult)
  | showdown (results : List ShowResult) (winners : List WinnerAward)
deriving DecidableEq, Repr

def defaultShowResult : ShowResult := ⟨"", [], ⟨"", 0, []⟩, 0⟩

/-- The `winners.map((winner, index) => ...)` distribution loop: each winner
gets `winAmount` plus one odd chip while `index < remainder`, credited to the
first player in the list with the winner's id. -/
def awardLoop (ps : List Player) (ws : List ShowResult) (winAmount remainder : Int) (idx : Nat) :
    List Player × List WinnerAward :=
  match ws with
  | [] => (ps, [])
  | w :: rest =>
    let amount := winAmount + (if (idx : Int) < remainder then 1 else 0)
    let ps1 := updateFirstPlayer ps w.playerId (fun p => { p with chips := p.chips + amount })
    let res := awardLoop ps1 rest winAmount remainder (idx + 1)
    (res.1, ⟨w.playerId, amount⟩ :: res.2)

/-- `processShowdown`: evaluates every non-folded hand, sorts descending by
score, and splits the whole pot among the top scorers (`Math.floor` is `fdiv`,
JS `%` on a non-negative pot is `tmod`). Returns the mutated room and the
result object. -/
def processShowdown (room : Room) : Room × ShowdownOutcome :=
  let activePlayers := room.players.filter (fun p => !p.folded)
  if activePlayers.length = 1 then
    let winner := activePlayers.headD defaultPlayer
    let wIdx := (room.players.findIdx? (fun p => !p.folded)).getD 0
    ({ room with players :=
        room.players.set wIdx ({ winner with chips := winner.chips + room.pot }) },
     .singleWinner winner.id room.pot [])
  else
    let results := activePlayers.map (fun p =>
      let hv := (evaluateHand p.hand room.communityCards).getD ⟨"", 0, []⟩
      (⟨p.id, p.hand, hv, hv.score⟩ : ShowResult))
    let sorted := sortDescBy (fun r => r.score) results
    let topScore := (sorted.headD defaultShowResult).score
    let winners := sorted.filter (fun r => r.score == topScore)
    let winAmount := room.pot.fdiv (winners.length : Int)
    let remainder := room.pot.tmod (winners.length : Int)
    let award := awardLoop room.players winners winAmount remainder 0
    ({ room with players := award.1 }, .showdown sorted award.2)

/-! ### Broadcast sanitization (`PokerRoomManager.sanitizeRoomForBroadcast`) -/

inductive ViewCard where
  | visible (c : Card)
  | hidden
deriving DecidableEq, Repr

structure ViewPlayer where
  id : String
  chips : Int
  bet : Int
  hand : List ViewCard
  folded : Bool
  allIn : Bool
  status : String
deriving DecidableEq, Repr

/-- The broadcast view object: `{ ...room }` copies every room field —
including `deck` — and only `players` is conditionally rebuilt. -/
structure RoomView where
  players : List ViewPlayer
  pot : Int
  currentBet : Int
  minBet : Int
  phase : String
  status : String
  currentTurn : Option String
  lastRaiser : Option String
  playersActedThisRound : List String
  dealerIndex : Nat
  smallBlind : Option String
  bigBlind : Option String
  communityCards : List Card
  deck : List Card
deriving DecidableEq, Repr

def viewPlayerVisible (p : Player) : ViewPlayer :=
  ⟨p.id, p.chips, p.bet, p.hand.map .visible, p.folded, p.allIn, p.status⟩

/-- `{ ...player, hand: player.hand.map(() => ({ hidden: true })) }`. -/
def viewPlayerHidden (p : Player) : ViewPlayer :=
  ⟨p.id, p.chips, p.bet, p.hand.map (fun _ => .hidden), p.folded, p.allIn, p.status⟩

def sanitizeRoomForBroadcast (room : Room) : RoomView :=
  let base : RoomView :=
    ⟨room.players.map viewPlayerVisible, room.pot, room.currentBet, room.minBet, room.phase,
     room.status, room.currentTurn, room.lastRaiser, room.playersActedThisRound,
     room.dealerIndex, room.smallBlind, room.bigBlind, room.communityCards, room.deck⟩
  if room.phase ≠ "showdown" then
    { base with players := room.players.map viewPlayerHidden }
  else base

/-! ### Concrete scenarios used by the theorems below -/

/-- Board A-K-Q-J-9 rainbow: any two low offsuit cards still make an A-K-Q-J-9
high card, while a pair in the hole makes a mere pair. -/
def c1Board : List Card :=
  [⟨"A", "hearts"⟩, ⟨"K", "diamonds"⟩, ⟨"Q", "spades"⟩, ⟨"J", "hearts"⟩, ⟨"9", "clubs"⟩]

def c1PairHole : List Card := [⟨"2", "clubs"⟩, ⟨"2", "diamonds"⟩]

def c1HighHole : List Card := [⟨"3", "clubs"⟩, ⟨"4", "diamonds"⟩]

/-- Showdown room for the side-pot scenario: total pot 270 (P1 contributed 50
all-in, P2 and P3 contributed 110 each), P1 holding the best hand. -/
def c2room : Room :=
  { players :=
      [⟨"P1", 0, 0, [⟨"A", "hearts"⟩, ⟨"K", "diamonds"⟩], false, true, "active"⟩,
       ⟨"P2", 90, 0, [⟨"Q", "diamonds"⟩, ⟨"3", "clubs"⟩], false, false, "active"⟩,
       ⟨"P3", 90, 0, [⟨"10", "diamonds"⟩, ⟨"4", "clubs"⟩], false, false, "active"⟩],
    pot := 270, currentBet := 0, minBet := 10, phase := "river", status := "playing",
    currentTurn := none, lastRaiser := none, playersActedThisRound := [], dealerIndex := 0,
    smallBlind := some "P2", bigBlind := some "P3",
    communityCards :=
      [⟨"2", "hearts"⟩, ⟨"5", "diamonds"⟩, ⟨"7", "spades"⟩, ⟨"9", "clubs"⟩, ⟨"J", "hearts"⟩],
    deck := [] }

/-- Projection used to state facts about the showdown result object. -/
def showdownWinners : ShowdownOutcome → List WinnerAward
  | .singleWinner _ _ _ => []
  | .showdown _ ws => ws

/-- A seat on turn holding 5 chips facing `currentBet = 10`. -/
def c3room : Room :=
  { players := [⟨"P1", 5, 0, [], false, false, "active"⟩],
    pot := 20, currentBet := 10, minBet := 10, phase := "flop", status := "playing",
    currentTurn := some "P1", lastRaiser := none, playersActedThisRound := [],
    dealerIndex := 0, smallBlind := none, bigBlind := none, communityCards := [], deck := [] }

/-- A seat on turn with plenty of chips facing `currentBet = 10`. -/
def c3okRoom : Room :=
  { players := [⟨"P1", 100, 0, [], false, false, "active"⟩,
                ⟨"P2", 100, 10, [], false, false, "active"⟩],
    pot := 20, currentBet := 10, minBet := 10, phase := "flop", status := "playing",
    currentTurn := some "P1", lastRaiser := some "P2", playersActedThisRound := ["P2"],
    dealerIndex := 0, smallBlind := none, bigBlind := none, communityCards := [], deck := [] }

/-- Scenario 1 setup: P1, P2, P3 with 1000 chips each, minBet 10, dealer P1. -/
def c4room : Room :=
  { players := [⟨"P1", 1000, 0, [], false, false, "active"⟩,
                ⟨"P2", 1000, 0, [], false, false, "active"⟩,
                ⟨"P3", 1000, 0, [], false, false, "active"⟩],
    pot := 0, currentBet := 0, minBet := 10, phase := "waiting", status := "waiting",
    currentTurn := none, lastRaiser := none, playersActedThisRound := [], dealerIndex := 0,
    smallBlind := none, bigBlind := none, communityCards := [], deck := [] }

/-- A deterministic stand-in for the shuffled deck. -/
def c4deck : List Card :=
  [⟨"2", "hearts"⟩, ⟨"3", "hearts"⟩, ⟨"4", "hearts"⟩, ⟨"5", "hearts"⟩, ⟨"6", "hearts"⟩,
   ⟨"7", "hearts"⟩, ⟨"8", "hearts"⟩, ⟨"9", "hearts"⟩]

/-- Scenario 6: P1 on turn, `currentBet = 10`, `P1.bet = 0`. -/
def c5room : Room :=
  { players := [⟨"P1", 1000, 0, [], false, false, "active"⟩],
    pot := 10, currentBet := 10, minBet := 10, phase := "preflop", status := "playing",
    currentTurn := some "P1", lastRaiser := none, playersActedThisRound := [],
    dealerIndex := 0, smallBlind := none, bigBlind := none, communityCards := [], deck := [] }

/-- P1 on turn with 50 chips, 5 already committed, facing `currentBet = 10`:
the all-in exceeds the current bet (re-opens the betting). -/
def c6room : Room :=
  { players := [⟨"P1", 50, 5, [], false, false, "active"⟩,
                ⟨"P2", 1000, 10, [], false, false, "active"⟩],
    pot := 15, currentBet := 10, minBet := 10, phase := "preflop", status := "playing",
    currentTurn := some "P1", lastRaiser := some "P2", playersActedThisRound := ["P2"],
    dealerIndex := 0, smallBlind := some "P1", bigBlind := some "P2",
    communityCards := [], deck := [] }

/-- Same, but P1 holds only 3 chips: the all-in is a call for less. -/
def c6roomB : Room :=
  { c6room with players := [⟨"P1", 3, 5, [], false, false, "active"⟩,
                            ⟨"P2", 1000, 10, [], false, false, "active"⟩] }

/-- Two rooms identical except for the deck remainder. -/
def c8base : Room := { c4room with phase := "preflop" }

def c8roomA : Room := { c8base with deck := [⟨"A", "spades"⟩] }

def c8roomB : Room := { c8base with deck := [] }

/-! ### Helper lemmas -/

theorem except_map_eq_error {α β γ : Type} {f : β → γ} {x : Except α β} {e : α}
    (h : x.map f = .error e) : x = .error e := by
  cases x with
  | error a => simpa [Except.map] using h
  | ok b => simp [Except.map] at h

theorem processBet_error {room : Room} {player : Player} {amount : Int} {msg : String}
    {r' : Room} (h : processBet room player amount = .error (msg, r')) : r' = room := by
  unfold processBet at h
  dsimp only at h
  split at h
  · simp only [Except.error.injEq, Prod.mk.injEq] at h; exact h.2.symm
  · split at h
    · simp only [Except.error.injEq, Prod.mk.injEq] at h; exact h.2.symm
    · split at h
      · simp only [Except.error.injEq, Prod.mk.injEq] at h; exact h.2.symm
      · simp at h

theorem processRaise_error {room : Room} {player : Player} {amount : Int} {msg : String}
    {r' : Room} (h : processRaise room player amount = .error (msg, r')) : r' = room := by
  unfold processRaise at h
  dsimp only at h
  split at h
  · simp only [Except.error.injEq, Prod.mk.injEq] at h; exact h.2.symm
  · split at h
    · simp only [Except.error.injEq, Prod.mk.injEq] at h; exact h.2.symm
    · simp at h

theorem processAllIn_error {room : Room} {player : Player} {msg : String}
    {r' : Room} (h : processAllIn room player = .error (msg, r')) : r' = room := by
  unfold processAllIn at h
  dsimp only at h
  split at h
  · simp only [Except.error.injEq, Prod.mk.injEq] at h; exact h.2.symm
  · split at h <;> simp at h

theorem except_map_eq_ok {α β γ : Type} {f : β → γ} {x : Except α β} {y : γ}
    (h : x.map f = .ok y) : ∃ z, x = .ok z ∧ y = f z := by
  cases x with
  | error a => simp [Except.map] at h
  | ok b => exact ⟨b, rfl, by simpa [Except.map] using h.symm⟩

theorem addActed_players (room : Room) (pid : String) :
    (addActed room pid).players = room.players := by
  unfold addActed; split <;> rfl

theorem addActed_pot (room : Room) (pid : String) :
    (addActed room pid).pot = room.pot := by
  unfold addActed; split <;> rfl

theorem addActed_currentBet (room : Room) (pid : String) :
    (addActed room pid).currentBet = room.currentBet := by
  unfold addActed; split <;> rfl

theorem addActed_lastRaiser (room : Room) (pid : String) :
    (addActed room pid).lastRaiser = room.lastRaiser := by
  unfold addActed; split <;> rfl

theorem addActed_acted (room : Room) (pid : String) :
    (addActed room pid).playersActedThisRound =
      (if pid ∈ room.playersActedThisRound then room.playersActedThisRound
       else room.playersActedThisRound ++ [pid]) := by
  unfold addActed; split <;> simp_all

theorem addActed_of_mem {room : Room} {pid : String}
    (h : pid ∈ room.playersActedThisRound) : addActed room pid = room := by
  unfold addActed; rw [if_pos h]

theorem mem_updateFirstPlayer {q : Player} {ps : List Player} {pid : String}
    {f : Player → Player} (h : q ∈ updateFirstPlayer ps pid f) :
    q ∈ ps ∨ ∃ p, p ∈ ps ∧ q = f p := by
  induction ps with
  | nil => simp [updateFirstPlayer] at h
  | cons a as ih =>
    unfold updateFirstPlayer at h
    split at h
    · rcases List.mem_cons.mp h with h | h
      · exact Or.inr ⟨a, List.mem_cons_self a as, h⟩
      · exact Or.inl (List.mem_cons_of_mem a h)
    · rcases List.mem_cons.mp h with h | h
      · exact Or.inl (h ▸ List.mem_cons_self a as)
      · rcases ih h with h | ⟨p, hp, hq⟩
        · exact Or.inl (List.mem_cons_of_mem a h)
        · exact Or.inr ⟨p, List.mem_cons_of_mem a hp, hq⟩

theorem find?_updateFirstPlayer {ps : List Player} {pid : String} {p : Player}
    {f : Player → Player} (h : ps.find? (fun q => q.id == pid) = some p)
    (hid : (f p).id = p.id) :
    (updateFirstPlayer ps pid f).find? (fun q => q.id == pid) = some (f p) := by
  induction ps with
  | nil => simp at h
  | cons a as ih =>
    rw [List.find?_cons] at h
    cases ha : (a.id == pid) with
    | true =>
      rw [ha] at h
      cases h
      have hae : p.id = pid := by simpa [beq_iff_eq] using ha
      unfold updateFirstPlayer
      rw [if_pos hae, List.find?_cons]
      have : ((f p).id == pid) = true := by simp [beq_iff_eq, hid, hae]
      rw [this]
    | false =>
      rw [ha] at h
      have hane : ¬ a.id = pid := by simpa [beq_iff_eq] using ha
      unfold updateFirstPlayer
      rw [if_neg hane, List.find?_cons, ha]
      exact ih h

/-! ### Claims -/

/-- C1: the claim that `evaluateHand` scores totally order hands by standard
Texas Hold'em strength — in particular that every Pair outscores every High
Card — fails: over the board A-K-Q-J-9, a pair of twos scores 2742 while a
bare high card (the same board with 3-4 in the hole) scores 154319, so the
high card outscores the pair. -/
theorem c1_high_card_outscores_pair :
    (evaluateHand c1PairHole c1Board).map (fun hv => (hv.name, hv.score))
      = some ("Pair", 2742) ∧
    (evaluateHand c1HighHole c1Board).map (fun hv => (hv.name, hv.score))
      = some ("High Card", 154319) ∧
    ((2742 : Int) < 154319) :=
  ⟨by decide, by decide, by norm_num⟩

/-- C2 counterexample: at the claimed side-pot scenario (P1 committed 50 and
holding the best hand, P2 and P3 committed 110 each, pot 270) the code awards
the entire 270 to P1 and nothing to P2, instead of 150 and 120. -/
theorem c2_whole_pot_counterexample :
    showdownWinners (processShowdown c2room).2 = [⟨"P1", 270⟩] ∧
    (processShowdown c2room).1.players.map (fun p => (p.id, p.chips))
      = [("P1", 270), ("P2", 90), ("P3", 90)] :=
  ⟨by decide, by decide⟩

/-- C3 counterexample: a raise whose total would exceed the seat's stack does
not succeed as a capped all-in; `processRaise` throws "Not enough chips" and
the room is unchanged (P1 on turn with 5 chips, `currentBet = 10`, raise 10). -/
theorem c3_raise_cap_counterexample :
    processPlayerAction c3room "P1" "raise" 10 = .error ("Not enough chips", c3room) :=
  rfl

/-- C4: `startNewHand` never advances the dealer cursor: `assignDealerAndBlinds`
only reduces it modulo the number of chipped seats (under a "Move dealer
button" comment), so in the Scenario 1 room the dealer stays at P1
(`dealerIndex = 0`) instead of moving to P2 (`dealerIndex = 1`). -/
theorem c4_dealer_not_advanced :
    c4room.dealerIndex = 0 ∧
    (startNewHand c4room c4deck).map (fun r => r.dealerIndex) = some 0 ∧
    (startNewHand c4room c4deck).map (fun r => r.smallBlind) = some (some "P2") :=
  ⟨rfl, rfl, rfl⟩

/-- C5: whenever `processPlayerAction` throws (not your turn, seat folded,
illegal check, bad bet or raise, unknown action name, unknown player), no
mutation has happened yet: the room state carried at the throw point equals
the input room (pot, chips, bets, phase, currentBet, currentTurn all as
before). -/
theorem c5_error_leaves_state_unchanged (room : Room) (playerId action : String)
    (amount : Int) (msg : String) (r' : Room)
    (h : processPlayerAction room playerId action amount = .error (msg, r')) :
    r' = room := by
  unfold processPlayerAction at h
  cases hf : room.players.find? (fun p => p.id == playerId) with
  | none =>
    rw [hf] at h
    dsimp only at h
    simp only [Except.error.injEq, Prod.mk.injEq] at h; exact h.2.symm
  | some player =>
    rw [hf] at h
    dsimp only at h
    by_cases h1 : room.currentTurn ≠ some playerId
    · rw [if_pos h1] at h
      simp only [Except.error.injEq, Prod.mk.injEq] at h; exact h.2.symm
    · rw [if_neg h1] at h
      by_cases h2 : player.folded = true
      · rw [if_pos h2] at h
        simp only [Except.error.injEq, Prod.mk.injEq] at h; exact h.2.symm
      · rw [if_neg h2] at h
        replace h := except_map_eq_error h
        by_cases a1 : action = "fold"
        · rw [if_pos a1] at h; simp at h
        · rw [if_neg a1] at h
          by_cases a2 : action = "check"
          · rw [if_pos a2] at h
            by_cases hc : player.bet < room.currentBet
            · rw [if_pos hc] at h
              simp only [Except.error.injEq, Prod.mk.injEq] at h; exact h.2.symm
            · rw [if_neg hc] at h; simp at h
          · rw [if_neg a2] at h
            by_cases a3 : action = "call"
            · rw [if_pos a3] at h; simp at h
            · rw [if_neg a3] at h
              by_cases a4 : action = "bet"
              · rw [if_pos a4] at h; exact processBet_error h
              · rw [if_neg a4] at h
                by_cases a5 : action = "raise"
                · rw [if_pos a5] at h; exact processRaise_error h
                · rw [if_neg a5] at h
                  by_cases a6 : action = "allin"
                  · rw [if_pos a6] at h; exact processAllIn_error h
                  · rw [if_neg a6] at h
                    simp only [Except.error.injEq, Prod.mk.injEq] at h; exact h.2.symm

/-- C5 witness: Scenario 6 — P1 checks while `currentBet = 10 > P1.bet = 0`;
the engine throws "Cannot check when there is a bet to call" and the state is
unchanged. -/
theorem c5_witness :
    processPlayerAction c5room "P1" "check" 0
      = .error ("Cannot check when there is a bet to call", c5room) ∧ c5room = c5room :=
  ⟨rfl, c5_error_leaves_state_unchanged c5room "P1" "check" 0
    "Cannot check when there is a bet to call" c5room rfl⟩

/-- C8: the broadcast view exposes the deck remainder: `sanitizeRoomForBroadcast`
spreads the whole room object (including `deck`) and only rewrites `players`,
so two rooms that differ only in the deck produce different views, and the
view's deck field is the room's undealt deck verbatim. -/
theorem c8_deck_exposed :
    c8roomA = { c8roomB with deck := [⟨"A", "spades"⟩] } ∧
    (sanitizeRoomForBroadcast c8roomA).deck = [⟨"A", "spades"⟩] ∧
    (sanitizeRoomForBroadcast c8roomB).deck = [] ∧
    sanitizeRoomForBroadcast c8roomA ≠ sanitizeRoomForBroadcast c8roomB :=
  ⟨rfl, rfl, rfl, by decide⟩

/-- C3 (amended): a raise by the seat on turn succeeds only when
`currentBet + amount ≤ chips + committed` (and `amount ≥ minBet`); the new
per-round committed is then exactly `currentBet + amount` (no capping),
`currentBet` equals the seat's new committed, `lastAggressor` is the seat, and
the has-acted set is reset to contain only that seat. -/
theorem c3_amended_raise (room : Room) (p : Player) (pid : String) (amount : Int)
    (hfind : room.players.find? (fun q => q.id == pid) = some p)
    (hturn : room.currentTurn = some pid)
    (hnf : p.folded = false)
    (hchips : room.currentBet + amount ≤ p.chips + p.bet)
    (hmin : room.minBet ≤ amount) :
    ∃ room', processPlayerAction room pid "raise" amount = .ok room' ∧
      room'.currentBet = room.currentBet + amount ∧
      room'.lastRaiser = some pid ∧
      room'.playersActedThisRound = [pid] ∧
      room'.pot = room.pot + (room.currentBet + amount - p.bet) ∧
      ∃ p', room'.players.find? (fun q => q.id == pid) = some p' ∧
        p'.bet = room.currentBet + amount ∧
        p'.chips = p.chips - (room.currentBet + amount - p.bet) := by
  have hpid : p.id = pid := by
    have := List.find?_some hfind
    simpa [beq_iff_eq] using this
  unfold processPlayerAction
  rw [hfind]
  dsimp only
  rw [if_neg (by simp [hturn]), if_neg (by simp [hnf])]
  rw [if_neg (by decide), if_neg (by decide), if_neg (by decide), if_neg (by decide),
    if_pos rfl]
  unfold processRaise
  dsimp only
  rw [if_neg (by omega), if_neg (by omega)]
  refine ⟨_, rfl, ?_⟩
  dsimp only
  set p1 : Player :=
    { p with chips := p.chips - (room.currentBet + amount - p.bet),
             bet := room.currentBet + amount } with hp1
  set p2 : Player := if p1.chips = 0 then { p1 with allIn := true } else p1 with hp2
  have hp2bet : p2.bet = room.currentBet + amount := by
    rw [hp2]; split <;> simp [hp1]
  have hp2chips : p2.chips = p.chips - (room.currentBet + amount - p.bet) := by
    rw [hp2]; split <;> simp_all [hp1]
  have hp2id : p2.id = p.id := by rw [hp2]; split <;> simp [hp1]
  have hfind' :
      (updateFirstPlayer room.players p.id (fun _ => p2)).find? (fun q => q.id == pid)
        = some p2 := by
    rw [hpid]
    exact find?_updateFirstPlayer hfind (by rw [hp2id, hpid])
  rw [addActed_of_mem (by simp [hpid])]
  refine ⟨rfl, by simp [hpid], by simp [hpid], rfl, p2, hfind', hp2bet, hp2chips⟩

/-- C3 witness: on a concrete room (P1 on turn with 100 chips, 0 committed,
`currentBet = 10`) a raise of 10 succeeds with committed 20. -/
theorem c3_amended_raise_witness :
    ∃ room', processPlayerAction c3okRoom "P1" "raise" 10 = .ok room' ∧
      room'.currentBet = c3okRoom.currentBet + 10 ∧
      room'.lastRaiser = some "P1" ∧
      room'.playersActedThisRound = ["P1"] ∧
      room'.pot = c3okRoom.pot + (c3okRoom.currentBet + 10 - 0) ∧
      ∃ p', room'.players.find? (fun q => q.id == "P1") = some p' ∧
        p'.bet = c3okRoom.currentBet + 10 ∧
        p'.chips = 100 - (c3okRoom.currentBet + 10 - 0) :=
  c3_amended_raise c3okRoom ⟨"P1", 100, 0, [], false, false, "active"⟩ "P1" 10
    (by decide) (by decide) rfl (by decide) (by decide)

/-- C6: an all-in by the seat on turn moves all remaining chips into the pot
and marks the seat all-in; when the resulting per-round committed exceeds
`currentBet` it acts as a raise (`currentBet` becomes the committed amount,
`lastAggressor` becomes the seat, the has-acted set is reset to only that
seat); otherwise it is a call for less (`currentBet`, `lastAggressor` and the
previously-acted seats' membership in the has-acted set are unchanged). -/
theorem c6_allin_behavior (room : Room) (p : Player) (pid : String)
    (hfind : room.players.find? (fun q => q.id == pid) = some p)
    (hturn : room.currentTurn = some pid)
    (hnf : p.folded = false)
    (hchips : 0 < p.chips) :
    ∃ room', processPlayerAction room pid "allin" 0 = .ok room' ∧
      room'.pot = room.pot + p.chips ∧
      (∃ p', room'.players.find? (fun q => q.id == pid) = some p' ∧
        p'.chips = 0 ∧ p'.allIn = true ∧ p'.bet = p.bet + p.chips) ∧
      (if room.currentBet < p.bet + p.chips then
        room'.currentBet = p.bet + p.chips ∧ room'.lastRaiser = some pid ∧
          room'.playersActedThisRound = [pid]
      else
        room'.currentBet = room.currentBet ∧ room'.lastRaiser = room.lastRaiser ∧
          room'.playersActedThisRound =
            (if pid ∈ room.playersActedThisRound then room.playersActedThisRound
             else room.playersActedThisRound ++ [pid])) := by
  have hpid : p.id = pid := by
    have := List.find?_some hfind
    simpa [beq_iff_eq] using this
  unfold processPlayerAction
  rw [hfind]
  dsimp only
  rw [if_neg (by simp [hturn]), if_neg (by simp [hnf])]
  rw [if_neg (by decide), if_neg (by decide), if_neg (by decide), if_neg (by decide),
    if_neg (by decide), if_pos rfl]
  unfold processAllIn
  dsimp only
  rw [if_neg (by omega)]
  set p1 : Player := { p with bet := p.bet + p.chips, chips := 0, allIn := true } with hp1
  have hfind' :
      (updateFirstPlayer room.players p.id (fun _ => p1)).find? (fun q => q.id == pid)
        = some p1 := by
    rw [hpid]
    exact find?_updateFirstPlayer hfind (by rw [hp1, hpid])
  by_cases hc : room.currentBet < p.bet + p.chips
  · rw [if_pos (show room.currentBet < p1.bet from hc)]
    refine ⟨_, rfl, ?_⟩
    dsimp only
    rw [addActed_of_mem (by simp [hpid])]
    rw [if_pos hc]
    exact ⟨rfl, ⟨p1, hfind', rfl, rfl, rfl⟩, rfl, by simp [hpid], by simp [hpid]⟩
  · rw [if_neg (show ¬ room.currentBet < p1.bet from hc)]
    refine ⟨_, rfl, ?_⟩
    dsimp only
    rw [if_neg hc]
    refine ⟨addActed_pot _ _, ?_, addActed_currentBet _ _, addActed_lastRaiser _ _,
      addActed_acted _ _⟩
    refine ⟨p1, ?_, rfl, rfl, rfl⟩
    rw [addActed_players]
    exact hfind'

/-- C6 witness: P1 on turn with 50 chips and 5 committed against
`currentBet = 10` goes all-in for 55 total, which re-opens the betting. -/
theorem c6_allin_witness :
    ∃ room', processPlayerAction c6room "P1" "allin" 0 = .ok room' ∧
      room'.pot = c6room.pot + 50 ∧
      (∃ p', room'.players.find? (fun q => q.id == "P1") = some p' ∧
        p'.chips = 0 ∧ p'.allIn = true ∧ p'.bet = 5 + 50) ∧
      (if c6room.currentBet < 5 + 50 then
        room'.currentBet = 5 + 50 ∧ room'.lastRaiser = some "P1" ∧
          room'.playersActedThisRound = ["P1"]
      else
        room'.currentBet = c6room.currentBet ∧ room'.lastRaiser = c6room.lastRaiser ∧
          room'.playersActedThisRound =
            (if "P1" ∈ c6room.playersActedThisRound then c6room.playersActedThisRound
             else c6room.playersActedThisRound ++ ["P1"])) :=
  c6_allin_behavior c6room ⟨"P1", 50, 5, [], false, false, "active"⟩ "P1"
    (by decide) (by decide) rfl (by decide)

/-- The player object `processAllIn` writes back. -/
def pAllIn (player : Player) : Player :=
  { player with bet := player.bet + player.chips, chips := 0, allIn := true }

theorem awardLoop_chips_nonneg {winAmount remainder : Int}
    (hw : 0 ≤ winAmount) :
    ∀ (ws : List ShowResult) (ps : List Player) (idx : Nat),
      (∀ p ∈ ps, 0 ≤ p.chips) → ∀ p ∈ (awardLoop ps ws winAmount remainder idx).1, 0 ≤ p.chips := by
  intro ws
  induction ws with
  | nil => intro ps idx hps p hp; exact hps p hp
  | cons w rest ih =>
    intro ps idx hps p hp
    unfold awardLoop at hp
    dsimp only at hp
    refine ih _ (idx + 1) ?_ p hp
    intro q hq
    rcases mem_updateFirstPlayer hq with hq | ⟨a, ha, rfl⟩
    · exact hps q hq
    · have := hps a ha
      dsimp only
      split <;> omega

/-- C7: chip stacks never go negative. Every chip-moving event — a player
action (`processPlayerAction`, covering fold, check, call, bet, raise and
all-in), posting the blinds (`postBlinds`) and showdown distribution
(`processShowdown`) — preserves `0 ≤ chips` for every seat: calls and blinds
are capped at the available stack, bets and raises beyond the stack are
rejected before any mutation, and showdown only adds chips. -/
theorem c7_chips_nonnegative :
    (∀ (room : Room) (pid act : String) (amt : Int) (room' : Room),
       processPlayerAction room pid act amt = .ok room' →
       (∀ p ∈ room.players, 0 ≤ p.chips) → ∀ p ∈ room'.players, 0 ≤ p.chips) ∧
    (∀ (room room' : Room), postBlinds room = some room' →
       (∀ p ∈ room.players, 0 ≤ p.chips) → ∀ p ∈ room'.players, 0 ≤ p.chips) ∧
    (∀ (room : Room), 0 ≤ room.pot → (∀ p ∈ room.players, 0 ≤ p.chips) →
       ∀ p ∈ (processShowdown room).1.players, 0 ≤ p.chips) := by
  refine ⟨?_, ?_, ?_⟩
  · -- player actions
    intro room pid act amt room' hok hnn
    unfold processPlayerAction at hok
    cases hf : room.players.find? (fun p => p.id == pid) with
    | none => rw [hf] at hok; simp at hok
    | some player =>
      rw [hf] at hok
      dsimp only at hok
      have hmem := List.mem_of_find?_eq_some hf
      have hpc : 0 ≤ player.chips := hnn player hmem
      by_cases h1 : room.currentTurn ≠ some pid
      · rw [if_pos h1] at hok; simp at hok
      · rw [if_neg h1] at hok
        by_cases h2 : player.folded = true
        · rw [if_pos h2] at hok; simp at hok
        · rw [if_neg h2] at hok
          obtain ⟨mid, hmid, rfl⟩ := except_map_eq_ok hok
          rw [addActed_players]
          by_cases a1 : act = "fold"
          · rw [if_pos a1] at hmid
            cases hmid
            intro p hp
            rcases mem_updateFirstPlayer hp with hp | ⟨a, ha, rfl⟩
            · exact hnn p hp
            · exact hnn a ha
          · rw [if_neg a1] at hmid
            by_cases a2 : act = "check"
            · rw [if_pos a2] at hmid
              by_cases hc : player.bet < room.currentBet
              · rw [if_pos hc] at hmid; simp at hmid
              · rw [if_neg hc] at hmid
                cases hmid
                exact hnn
            · rw [if_neg a2] at hmid
              by_cases a3 : act = "call"
              · rw [if_pos a3] at hmid
                cases hmid
                unfold processCall
                dsimp only
                split
                · exact hnn
                · intro p hp
                  rcases mem_updateFirstPlayer hp with hp | ⟨a, ha, rfl⟩
                  · exact hnn p hp
                  · have hmin := min_le_right (room.currentBet - player.bet) player.chips
                    split <;> dsimp only <;> omega
              · rw [if_neg a3] at hmid
                by_cases a4 : act = "bet"
                · rw [if_pos a4] at hmid
                  unfold processBet at hmid
                  dsimp only at hmid
                  split at hmid
                  · simp at hmid
                  · split at hmid
                    · simp at hmid
                    · split at hmid
                      · simp at hmid
                      · rename_i hle
                        cases hmid
                        intro p hp
                        rcases mem_updateFirstPlayer hp with hp | ⟨a, ha, rfl⟩
                        · exact hnn p hp
                        · split <;> dsimp only <;> omega
                · rw [if_neg a4] at hmid
                  by_cases a5 : act = "raise"
                  · rw [if_pos a5] at hmid
                    unfold processRaise at hmid
                    dsimp only at hmid
                    split at hmid
                    · simp at hmid
                    · split at hmid
                      · simp at hmid
                      · rename_i hle hminb
                        cases hmid
                        intro p hp
                        rcases mem_updateFirstPlayer hp with hp | ⟨a, ha, rfl⟩
                        · exact hnn p hp
                        · split <;> dsimp only <;> omega
                  · rw [if_neg a5] at hmid
                    by_cases a6 : act = "allin"
                    · rw [if_pos a6] at hmid
                      unfold processAllIn at hmid
                      dsimp only at hmid
                      split at hmid
                      · simp at hmid
                      · have hup : ∀ q ∈ updateFirstPlayer room.players player.id
                            (fun _ => pAllIn player), 0 ≤ q.chips := by
                          intro q hq
                          rcases mem_updateFirstPlayer hq with hq | ⟨a, ha, rfl⟩
                          · exact hnn q hq
                          · simp [pAllIn]
                        split at hmid <;> cases hmid <;> exact hup
                    · rw [if_neg a6] at hmid; simp at hmid
  · -- posting blinds
    intro room room' hok hnn
    unfold postBlinds at hok
    cases hsb : findIdxById room.players room.smallBlind with
    | none => rw [hsb] at hok; simp at hok
    | some sbIdx =>
      cases hbb : findIdxById room.players room.bigBlind with
      | none => rw [hsb, hbb] at hok; simp at hok
      | some bbIdx =>
        rw [hsb, hbb] at hok
        dsimp only at hok
        cases hok
        have hsbp : 0 ≤ ((room.players.get? sbIdx).getD defaultPlayer).chips := by
          cases hg : room.players.get? sbIdx with
          | none => simp [defaultPlayer]
          | some q => simpa [hg] using hnn q (List.get?_mem hg)
        have hsb2 : ∀ p ∈ room.players.set sbIdx
            (if ((room.players.get? sbIdx).getD defaultPlayer).chips -
                  min (room.minBet.fdiv 2) ((room.players.get? sbIdx).getD defaultPlayer).chips = 0
             then { (room.players.get? sbIdx).getD defaultPlayer with
                      chips := ((room.players.get? sbIdx).getD defaultPlayer).chips -
                        min (room.minBet.fdiv 2) ((room.players.get? sbIdx).getD defaultPlayer).chips,
                      bet := min (room.minBet.fdiv 2) ((room.players.get? sbIdx).getD defaultPlayer).chips,
                      allIn := true }
             else { (room.players.get? sbIdx).getD defaultPlayer with
                      chips := ((room.players.get? sbIdx).getD defaultPlayer).chips -
                        min (room.minBet.fdiv 2) ((room.players.get? sbIdx).getD defaultPlayer).chips,
                      bet := min (room.minBet.fdiv 2) ((room.players.get? sbIdx).getD defaultPlayer).chips }),
            0 ≤ p.chips := by
          intro p hp
          rcases List.mem_or_eq_of_mem_set hp with hp | rfl
          · exact hnn p hp
          · have := min_le_right (room.minBet.fdiv 2)
              ((room.players.get? sbIdx).getD defaultPlayer).chips
            split <;> dsimp only <;> omega
        intro p hp
        rcases List.mem_or_eq_of_mem_set hp with hp | rfl
        · exact hsb2 p hp
        · set players1 := room.players.set sbIdx _ with hpl1
          have hbbp : 0 ≤ ((players1.get? bbIdx).getD defaultPlayer).chips := by
            cases hg : players1.get? bbIdx with
            | none => simp [defaultPlayer]
            | some q => simpa [hg] using hsb2 q (List.get?_mem hg)
          have := min_le_right room.minBet ((players1.get? bbIdx).getD defaultPlayer).chips
          split <;> dsimp only <;> omega
  · -- showdown distribution
    intro room hpot hnn
    unfold processShowdown
    dsimp only
    split
    · rename_i hone
      intro p hp
      rcases List.mem_or_eq_of_mem_set hp with hp | rfl
      · exact hnn p hp
      · have hwmem : (room.players.filter (fun p => !p.folded)).headD defaultPlayer
            ∈ room.players := by
          cases hfl : room.players.filter (fun p => !p.folded) with
          | nil => rw [hfl] at hone; simp at hone
          | cons a as =>
            have ha : a ∈ room.players.filter (fun p => !p.folded) := by
              rw [hfl]; exact List.mem_cons_self a as
            simpa using List.mem_of_mem_filter ha
        have := hnn _ hwmem
        dsimp only
        omega
    · exact awardLoop_chips_nonneg (Int.fdiv_nonneg hpot (by positivity)) _ _ 0 hnn

theorem mem_insertDescBy {α : Type} {key : α → Int} {x y : α} {l : List α} :
    y ∈ insertDescBy key x l ↔ y = x ∨ y ∈ l := by
  induction l with
  | nil => simp [insertDescBy]
  | cons a as ih =>
    unfold insertDescBy
    split
    · simp
    · simp only [List.mem_cons, ih]
      tauto

theorem mem_sortDescBy {α : Type} {key : α → Int} {y : α} {l : List α} :
    y ∈ sortDescBy key l ↔ y ∈ l := by
  induction l with
  | nil => simp [sortDescBy]
  | cons a as ih =>
    unfold sortDescBy
    rw [mem_insertDescBy, ih]
    simp

theorem length_insertDescBy {α : Type} (key : α → Int) (x : α) (l : List α) :
    (insertDescBy key x l).length = l.length + 1 := by
  induction l with
  | nil => rfl
  | cons a as ih =>
    unfold insertDescBy
    split
    · rfl
    · simp [ih]

theorem length_sortDescBy {α : Type} (key : α → Int) (l : List α) :
    (sortDescBy key l).length = l.length := by
  induction l with
  | nil => rfl
  | cons a as ih => unfold sortDescBy; rw [length_insertDescBy, ih, List.length_cons]

theorem sortDescBy_headD_max {α : Type} {key : α → Int} (d : α) (l : List α) :
    ∀ y ∈ sortDescBy key l, key y ≤ key ((sortDescBy key l).headD d) := by
  induction l with
  | nil => simp [sortDescBy]
  | cons x xs ih =>
    unfold sortDescBy
    cases hs : sortDescBy key xs with
    | nil =>
      intro y hy
      simp only [insertDescBy] at hy ⊢
      simp only [List.mem_singleton] at hy
      simp [hy]
    | cons z zs =>
      rw [hs] at ih
      unfold insertDescBy
      split
      · rename_i hzx
        intro y hy
        rcases List.mem_cons.mp hy with rfl | hy
        · simp
        · exact le_trans (ih y hy) (by simpa using hzx)
      · rename_i hzx
        push_neg at hzx
        intro y hy
        rcases List.mem_cons.mp hy with rfl | hy
        · simp
        · rcases mem_insertDescBy.mp hy with rfl | hy
          · simpa using le_of_lt hzx
          · simpa using ih y (List.mem_cons_of_mem z hy)

theorem awardLoop_length (winAmount remainder : Int) :
    ∀ (ws : List ShowResult) (ps : List Player) (idx : Nat),
      (awardLoop ps ws winAmount remainder idx).2.length = ws.length := by
  intro ws
  induction ws with
  | nil => intro ps idx; rfl
  | cons w rest ih =>
    intro ps idx
    unfold awardLoop
    simp [ih]

theorem awardLoop_ids (winAmount remainder : Int) :
    ∀ (ws : List ShowResult) (ps : List Player) (idx : Nat),
      (awardLoop ps ws winAmount remainder idx).2.map (fun w => w.playerId)
        = ws.map (fun w => w.playerId) := by
  intro ws
  induction ws with
  | nil => intro ps idx; rfl
  | cons w rest ih =>
    intro ps idx
    unfold awardLoop
    simp [ih]

/-- Helper: the number of indices in `[idx, idx+n)` below `remainder`. -/
def iteCount (idx n : Nat) (r : Int) : Int :=
  match n with
  | 0 => 0
  | Nat.succ m => (if (idx : Int) < r then 1 else 0) + iteCount (idx + 1) m r

theorem iteCount_of_le {r : Int} : ∀ (n idx : Nat), r ≤ (idx : Int) → iteCount idx n r = 0 := by
  intro n
  induction n with
  | zero => intro idx h; rfl
  | succ m ih =>
    intro idx h
    unfold iteCount
    rw [if_neg (by omega), ih (idx + 1) (by push_cast; omega)]
    ring

theorem iteCount_eq {r : Int} :
    ∀ (n idx : Nat), (idx : Int) ≤ r → r ≤ (idx : Int) + n →
      iteCount idx n r = r - idx := by
  intro n
  induction n with
  | zero => intro idx h0 h1; simp only [iteCount]; omega
  | succ m ih =>
    intro idx h0 h1
    unfold iteCount
    by_cases hi : (idx : Int) < r
    · rw [if_pos hi, ih (idx + 1) (by push_cast; omega) (by push_cast at h1 ⊢; omega)]
      push_cast
      ring
    · rw [if_neg hi, iteCount_of_le m (idx + 1) (by push_cast; omega)]
      omega

theorem awardLoop_sum (winAmount remainder : Int) :
    ∀ (ws : List ShowResult) (ps : List Player) (idx : Nat),
      ((awardLoop ps ws winAmount remainder idx).2.map (fun w => w.winAmount)).sum
        = (ws.length : Int) * winAmount + iteCount idx ws.length remainder := by
  intro ws
  induction ws with
  | nil => intro ps idx; simp [awardLoop, iteCount]
  | cons w rest ih =>
    intro ps idx
    unfold awardLoop
    simp only [List.map_cons, List.sum_cons, ih, List.length_cons, iteCount]
    push_cast
    ring

/-- C2 (amended): at showdown with more than one non-folded seat the engine
computes no side pots: it evaluates every non-folded hand, and the single pot
is split among the seats whose score equals the maximum, floor(pot/k) each
plus one odd chip for the first `pot mod k` winners; the amounts always sum to
the whole pot. -/
theorem c2_amended_whole_pot_to_best (room : Room)
    (hact : 2 ≤ (room.players.filter (fun p => !p.folded)).length)
    (hpot : 0 ≤ room.pot) :
    ∃ res ws, (processShowdown room).2 = .showdown res ws ∧ ws ≠ [] ∧
      (∀ w ∈ ws, ∃ e ∈ res, e.playerId = w.playerId ∧ ∀ e2 ∈ res, e2.score ≤ e.score) ∧
      (ws.map (fun w => w.winAmount)).sum = room.pot := by
  unfold processShowdown
  dsimp only
  rw [if_neg (by omega)]
  refine ⟨_, _, rfl, ?_, ?_, ?_⟩
  all_goals
    set results := (room.players.filter (fun p => !p.folded)).map (fun p =>
      let hv := (evaluateHand p.hand room.communityCards).getD ⟨"", 0, []⟩
      (⟨p.id, p.hand, hv, hv.score⟩ : ShowResult)) with hres
    set sorted := sortDescBy (fun r => r.score) results with hsorted
    set top := (sorted.headD defaultShowResult).score with htop
    set winners := sorted.filter (fun r => r.score == top) with hwin
  · -- the winners list is non-empty
    have hrlen : 2 ≤ results.length := by simpa [hres] using hact
    have hslen : 2 ≤ sorted.length := by
      rw [hsorted, length_sortDescBy]; exact hrlen
    have hwne : winners ≠ [] := by
      cases hs : sorted with
      | nil => rw [hs] at hslen; simp at hslen
      | cons z zs =>
        rw [hwin, hs]
        have : (z.score == top) = true := by
          rw [htop, hs]; simp
        simp only [List.filter_cons, this]
        simp
    intro hcon
    have := awardLoop_length (room.pot.fdiv (winners.length : Int))
      (room.pot.tmod (winners.length : Int)) winners room.players 0
    rw [hcon] at this
    exact hwne (List.length_eq_zero.mp this.symm)
  · -- every winner has the maximum score among the sorted results
    intro w hw
    have hidmem : w.playerId ∈ winners.map (fun e => e.playerId) := by
      rw [← awardLoop_ids (room.pot.fdiv (winners.length : Int))
        (room.pot.tmod (winners.length : Int)) winners room.players 0]
      exact List.mem_map_of_mem (fun e => e.playerId) hw
    obtain ⟨e, hewin, heid⟩ := List.mem_map.mp hidmem
    have hes : e ∈ sorted ∧ (e.score == top) = true := by
      have := List.mem_filter.mp (hwin ▸ hewin)
      exact this
    refine ⟨e, hes.1, heid, ?_⟩
    intro e2 he2
    have := sortDescBy_headD_max defaultShowResult results e2 (hsorted ▸ he2)
    have hetop : e.score = top := by simpa using hes.2
    rw [hetop, htop]
    exact this
  · -- the distributed amounts sum to the pot
    have hrlen : 2 ≤ results.length := by simpa [hres] using hact
    have hslen : 2 ≤ sorted.length := by
      rw [hsorted, length_sortDescBy]; exact hrlen
    have hwne : winners ≠ [] := by
      cases hs : sorted with
      | nil => rw [hs] at hslen; simp at hslen
      | cons z zs =>
        rw [hwin, hs]
        have : (z.score == top) = true := by
          rw [htop, hs]; simp
        simp only [List.filter_cons, this]
        simp
    have hn : 0 < winners.length := List.length_pos.mpr hwne
    have hncast : (0 : Int) < (winners.length : Int) := by exact_mod_cast hn
    rw [awardLoop_sum]
    have hr0 : 0 ≤ room.pot.tmod (winners.length : Int) := Int.tmod_nonneg _ hpot
    have hrlt : room.pot.tmod (winners.length : Int) < (winners.length : Int) :=
      Int.tmod_lt_of_pos room.pot hncast
    rw [iteCount_eq winners.length 0 (by simpa using hr0) (by push_cast; omega)]
    rw [Int.fdiv_eq_ediv _ (le_of_lt hncast), Int.tmod_eq_emod hpot (le_of_lt hncast)]
    push_cast
    have := Int.ediv_add_emod room.pot (winners.length : Int)
    omega

/-- C2 amended witness: the concrete showdown room (pot 270, three non-folded
seats, P1 best) instantiates the amended claim. -/
theorem c2_amended_witness :
    ∃ res ws, (processShowdown c2room).2 = .showdown res ws ∧ ws ≠ [] ∧
      (∀ w ∈ ws, ∃ e ∈ res, e.playerId = w.playerId ∧ ∀ e2 ∈ res, e2.score ≤ e.score) ∧
      (ws.map (fun w => w.winAmount)).sum = c2room.pot :=
  c2_amended_whole_pot_to_best c2room (by decide) (by decide)

/-- The room produced by the all-in of the C6 scenario. -/
def c7res : Room :=
  { players := [⟨"P1", 0, 55, [], false, true, "active"⟩,
                ⟨"P2", 1000, 10, [], false, false, "active"⟩],
    pot := 65, currentBet := 55, minBet := 10, phase := "preflop", status := "playing",
    currentTurn := some "P1", lastRaiser := some "P1", playersActedThisRound := ["P1"],
    dealerIndex := 0, smallBlind := some "P1", bigBlind := some "P2",
    communityCards := [], deck := [] }

/-- C7 witness: applying the preservation statement to the concrete all-in. -/
theorem c7_witness :
    processPlayerAction c6room "P1" "allin" 0 = .ok c7res ∧
    (∀ p ∈ c7res.players, 0 ≤ p.chips) :=
  ⟨rfl, c7_chips_nonnegative.1 c6room "P1" "allin" 0 c7res rfl (by decide)⟩

/-! ### Totality of the evaluator (C10) -/

theorem checkRoyalFlush_name {cards : List ECard} {hv : HandValue}
    (h : checkRoyalFlush cards = some hv) : hv.name = "Royal Flush" := by
  unfold checkRoyalFlush at h
  split at h
  · split at h
    · cases h; rfl
    · simp at h
  · simp at h

theorem checkStraightFlush_name {cards : List ECard} {hv : HandValue}
    (h : checkStraightFlush cards = some hv) : hv.name = "Straight Flush" := by
  unfold checkStraightFlush at h
  split at h
  · simp at h
  · split at h
    · simp at h
    · cases h; rfl

theorem checkFourOfAKind_name {cards : List ECard} {hv : HandValue}
    (h : checkFourOfAKind cards = some hv) : hv.name = "Four of a Kind" := by
  unfold checkFourOfAKind at h
  split at h
  · simp at h
  · cases h; rfl

theorem checkFullHouse_name {cards : List ECard} {hv : HandValue}
    (h : checkFullHouse cards = some hv) : hv.name = "Full House" := by
  unfold checkFullHouse at h
  dsimp only at h
  split at h
  · cases h; rfl
  · simp at h

theorem checkFlush_name {cards : List ECard} {hv : HandValue}
    (h : checkFlush cards = some hv) : hv.name = "Flush" := by
  unfold checkFlush at h
  split at h
  · simp at h
  · cases h; rfl

theorem checkStraight_name {cards : List ECard} {hv : HandValue}
    (h : checkStraight cards = some hv) : hv.name = "Straight" := by
  unfold checkStraight at h
  dsimp only at h
  split at h
  · cases h; rfl
  · split at h
    · cases h; rfl
    · simp at h

theorem checkThreeOfAKind_name {cards : List ECard} {hv : HandValue}
    (h : checkThreeOfAKind cards = some hv) : hv.name = "Three of a Kind" := by
  unfold checkThreeOfAKind at h
  split at h
  · simp at h
  · cases h; rfl

theorem checkTwoPair_name {cards : List ECard} {hv : HandValue}
    (h : checkTwoPair cards = some hv) : hv.name = "Two Pair" := by
  unfold checkTwoPair at h
  dsimp only at h
  split at h
  · simp at h
  · cases h; rfl

theorem checkPair_name {cards : List ECard} {hv : HandValue}
    (h : checkPair cards = some hv) : hv.name = "Pair" := by
  unfold checkPair at h
  split at h
  · simp at h
  · cases h; rfl

theorem orElse_isSome {α : Type} (o : Option α) (f : Unit → Option α) :
    (o.orElse f).isSome = (o.isSome || (f ()).isSome) := by
  cases o <;> rfl

/-- C10: for any hole and community cards totalling at least 5 cards,
`evaluateHand` returns a result (never `null`, never a thrown error): the
`||`-chain over the ranking checks is tried in order and the final
`checkHighCard` fallback always produces a hand value, so the result carries
one of the ten ranking names rather than the under-5-cards "Incomplete Hand"
marker. -/
theorem c10_evaluateHand_total (hole board : List Card)
    (h : 5 ≤ (hole ++ board).length) :
    ∃ hv, evaluateHand hole board = some hv ∧ hv.name ≠ "Incomplete Hand" := by
  unfold evaluateHand
  rw [if_neg (by omega)]
  dsimp only
  set s := sortDescBy (fun c => c.value) ((hole ++ board).map toECard) with hs
  cases h1 : checkRoyalFlush s with
  | some hv => exact ⟨hv, by simp [Option.orElse, h1], by simp [checkRoyalFlush_name h1]⟩
  | none =>
  cases h2 : checkStraightFlush s with
  | some hv => exact ⟨hv, by simp [Option.orElse, h1, h2], by simp [checkStraightFlush_name h2]⟩
  | none =>
  cases h3 : checkFourOfAKind s with
  | some hv => exact ⟨hv, by simp [Option.orElse, h1, h2, h3], by simp [checkFourOfAKind_name h3]⟩
  | none =>
  cases h4 : checkFullHouse s with
  | some hv =>
    exact ⟨hv, by simp [Option.orElse, h1, h2, h3, h4], by simp [checkFullHouse_name h4]⟩
  | none =>
  cases h5 : checkFlush s with
  | some hv =>
    exact ⟨hv, by simp [Option.orElse, h1, h2, h3, h4, h5], by simp [checkFlush_name h5]⟩
  | none =>
  cases h6 : checkStraight s with
  | some hv =>
    exact ⟨hv, by simp [Option.orElse, h1, h2, h3, h4, h5, h6], by simp [checkStraight_name h6]⟩
  | none =>
  cases h7 : checkThreeOfAKind s with
  | some hv =>
    exact ⟨hv, by simp [Option.orElse, h1, h2, h3, h4, h5, h6, h7],
      by simp [checkThreeOfAKind_name h7]⟩
  | none =>
  cases h8 : checkTwoPair s with
  | some hv =>
    exact ⟨hv, by simp [Option.orElse, h1, h2, h3, h4, h5, h6, h7, h8],
      by simp [checkTwoPair_name h8]⟩
  | none =>
  cases h9 : checkPair s with
  | some hv =>
    exact ⟨hv, by simp [Option.orElse, h1, h2, h3, h4, h5, h6, h7, h8, h9],
      by simp [checkPair_name h9]⟩
  | none =>
    exact ⟨checkHighCard s, by simp [Option.orElse, h1, h2, h3, h4, h5, h6, h7, h8, h9],
      by simp [checkHighCard]⟩

/-- C10 witness: a concrete 7-card input evaluates to a defined result. -/
theorem c10_witness :
    ∃ hv, evaluateHand c1HighHole c1Board = some hv ∧ hv.name ≠ "Incomplete Hand" :=
  c10_evaluateHand_total c1HighHole c1Board (by decide)

/-! ### Infrastructure for the wheel-straight claim (C9) -/

theorem perm_insertDescBy {α : Type} (key : α → Int) (x : α) (l : List α) :
    List.Perm (insertDescBy key x l) (x :: l) := by
  induction l with
  | nil => rfl
  | cons y ys ih =>
    unfold insertDescBy
    split
    · rfl
    · exact (ih.cons y).trans (List.Perm.swap x y ys)

theorem perm_sortDescBy {α : Type} (key : α → Int) (l : List α) :
    List.Perm (sortDescBy key l) l := by
  induction l with
  | nil => rfl
  | cons x xs ih =>
    unfold sortDescBy
    exact (perm_insertDescBy key x (sortDescBy key xs)).trans (ih.cons x)

theorem mem_dedupFirst {v : Int} {l : List Int} : v ∈ dedupFirst l ↔ v ∈ l := by
  have main : ∀ (l : List Int) (acc : List Int),
      v ∈ l.foldl (fun acc v => if v ∈ acc then acc else acc ++ [v]) acc ↔
        v ∈ acc ∨ v ∈ l := by
    intro l
    induction l with
    | nil => simp
    | cons a as ih =>
      intro acc
      simp only [List.foldl_cons, ih]
      by_cases ha : a ∈ acc
      · rw [if_pos ha]
        constructor
        · tauto
        · rintro (h | h)
          · exact Or.inl h
          · rcases List.mem_cons.mp h with rfl | h
            · exact Or.inl ha
            · exact Or.inr h
      · rw [if_neg ha]
        simp only [List.mem_append, List.mem_singleton, List.mem_cons]
        tauto
  unfold dedupFirst
  rw [main l []]
  simp

theorem mem_insertAscByNum {x y : String × List ECard} {l : List (String × List ECard)} :
    y ∈ insertAscByNum x l ↔ y = x ∨ y ∈ l := by
  induction l with
  | nil => simp [insertAscByNum]
  | cons a as ih =>
    unfold insertAscByNum
    split
    · simp
    · simp only [List.mem_cons, ih]
      tauto

theorem mem_sortAscByNum {y : String × List ECard} {l : List (String × List ECard)} :
    y ∈ sortAscByNum l ↔ y ∈ l := by
  induction l with
  | nil => simp [sortAscByNum]
  | cons a as ih =>
    unfold sortAscByNum
    rw [mem_insertAscByNum, ih]
    simp

theorem mem_entriesOf {e : String × List ECard} {gs : List (String × List ECard)}
    (h : e ∈ entriesOf gs) : e ∈ gs := by
  unfold entriesOf at h
  rcases List.mem_append.mp h with h | h
  · exact List.mem_of_mem_filter (mem_sortAscByNum.mp h)
  · exact List.mem_of_mem_filter h

theorem addToGroups_keys (key : ECard → String) (c : ECard) :
    ∀ (acc : List (String × List ECard)),
      (addToGroups key acc c).map (fun e => e.1) =
        (if key c ∈ acc.map (fun e => e.1) then acc.map (fun e => e.1)
         else acc.map (fun e => e.1) ++ [key c]) := by
  intro acc
  induction acc with
  | nil => simp [addToGroups]
  | cons a rest ih =>
    obtain ⟨k0, g⟩ := a
    unfold addToGroups
    by_cases hk : k0 = key c
    · rw [if_pos hk]
      simp [hk]
    · rw [if_neg hk]
      simp only [List.map_cons, ih]
      by_cases hmem : key c ∈ rest.map (fun e => e.1)
      · rw [if_pos hmem, if_pos (by simp [hmem])]
      · rw [if_neg hmem, if_neg (by simp [hmem, Ne.symm hk])]
        simp

theorem addToGroups_filter (key : ECard → String) (c : ECard) :
    ∀ (acc : List (String × List ECard)) (processed : List ECard),
      (∀ e ∈ acc, e.2 = processed.filter (fun d => key d == e.1)) →
      (key c ∉ acc.map (fun e => e.1) →
        processed.filter (fun d => key d == key c) = []) →
      ((acc.map (fun e => e.1)).Nodup) →
      ∀ e ∈ addToGroups key acc c,
        e.2 = (processed ++ [c]).filter (fun d => key d == e.1) := by
  intro acc
  induction acc with
  | nil =>
    intro processed h1 h2 h3 e he
    simp only [addToGroups, List.mem_singleton] at he
    subst he
    rw [List.filter_append, h2 (by simp)]
    simp
  | cons a rest ih =>
    intro processed h1 h2 h3 e he
    obtain ⟨k0, g⟩ := a
    unfold addToGroups at he
    by_cases hk : k0 = key c
    · rw [if_pos hk] at he
      rcases List.mem_cons.mp he with rfl | he
      · have hg : g = processed.filter (fun d => key d == k0) := by
          simpa using h1 (k0, g) (List.mem_cons_self _ _)
        rw [List.filter_append]
        simp only []
        rw [← hg]
        simp [hk]
      · have hrest := h1 e (List.mem_cons_of_mem _ he)
        rw [List.filter_append, ← hrest]
        have hne : e.1 ≠ key c := by
          rw [List.map_cons] at h3
          have hkeys := List.nodup_cons.mp h3
          intro hcon
          apply hkeys.1
          have : e.1 ∈ rest.map (fun e => e.1) := List.mem_map_of_mem (fun e => e.1) he
          rw [hcon, ← hk] at this
          simpa using this
        simp [hne, Ne.symm hne]
    · rw [if_neg hk] at he
      rcases List.mem_cons.mp he with rfl | he
      · have hg : g = processed.filter (fun d => key d == k0) := by
          simpa using h1 (k0, g) (List.mem_cons_self _ _)
        rw [List.filter_append, ← hg]
        simp [hk, Ne.symm hk]
      · refine ih processed ?_ ?_ ?_ e he
        · intro e2 he2
          exact h1 e2 (List.mem_cons_of_mem _ he2)
        · intro hnot
          exact h2 (by simp [hnot, Ne.symm hk])
        · rw [List.map_cons] at h3
          exact (List.nodup_cons.mp h3).2

theorem addToGroups_nodup (key : ECard → String) (c : ECard)
    (acc : List (String × List ECard)) (h : (acc.map (fun e => e.1)).Nodup) :
    ((addToGroups key acc c).map (fun e => e.1)).Nodup := by
  rw [addToGroups_keys]
  split
  · exact h
  · rename_i hnot
    simp only [List.nodup_append, List.nodup_singleton]
    exact ⟨h, trivial, by simpa using hnot⟩

theorem foldl_addToGroups_filter (key : ECard → String) :
    ∀ (cards : List ECard) (acc : List (String × List ECard)) (processed : List ECard),
      (∀ e ∈ acc, e.2 = processed.filter (fun d => key d == e.1)) →
      (∀ k, k ∉ acc.map (fun e => e.1) → processed.filter (fun d => key d == k) = []) →
      ((acc.map (fun e => e.1)).Nodup) →
      ∀ e ∈ cards.foldl (addToGroups key) acc,
        e.2 = (processed ++ cards).filter (fun d => key d == e.1) := by
  intro cards
  induction cards with
  | nil => intro acc processed h1 h2 h3 e he; simpa using h1 e he
  | cons c cs ih =>
    intro acc processed h1 h2 h3 e he
    rw [List.foldl_cons] at he
    have hstep := addToGroups_filter key c acc processed h1 (h2 (key c)) h3
    have hkeys := addToGroups_keys key c acc
    have h2' : ∀ k, k ∉ (addToGroups key acc c).map (fun e => e.1) →
        (processed ++ [c]).filter (fun d => key d == k) = [] := by
      intro k hk
      rw [hkeys] at hk
      have hkacc : k ∉ acc.map (fun e => e.1) := by
        intro hmem
        apply hk
        split <;> simp [hmem]
      have hkc : k ≠ key c := by
        intro hcon
        subst hcon
        apply hk
        split
        · assumption
        · simp
      rw [List.filter_append, h2 k hkacc]
      simp [Ne.symm hkc]
    have h3' := addToGroups_nodup key c acc h3
    have := ih (addToGroups key acc c) (processed ++ [c]) hstep h2' h3' e he
    simpa using this

/-- Every entry of `groupBy key cards` is labelled by its key and holds exactly
the cards with that key, in order. -/
theorem groupBy_filter (key : ECard → String) (cards : List ECard) :
    ∀ e ∈ groupBy key cards, e.2 = cards.filter (fun d => key d == e.1) := by
  intro e he
  have := foldl_addToGroups_filter key cards [] []
    (by simp) (by simp) (by simp) e (by simpa [groupBy] using he)
  simpa using this

theorem sum_map_add_nat {β : Type} (f g : β → Nat) (l : List β) :
    (l.map (fun x => f x + g x)).sum = (l.map f).sum + (l.map g).sum := by
  induction l with
  | nil => rfl
  | cons a as ih => simp [ih]; omega

theorem sum_map_indicator_le_one (r : String) :
    ∀ (keys : List String), keys.Nodup →
      (keys.map (fun k => if r == k then (1 : Nat) else 0)).sum ≤ 1 := by
  intro keys
  induction keys with
  | nil => simp
  | cons k ks ih =>
    intro hnd
    obtain ⟨hk, hks⟩ := List.nodup_cons.mp hnd
    simp only [List.map_cons, List.sum_cons]
    by_cases hr : r = k
    · subst hr
      have hz : (ks.map (fun k2 => if r == k2 then (1 : Nat) else 0)).sum = 0 := by
        apply List.sum_eq_zero
        intro x hx
        obtain ⟨k2, hk2, rfl⟩ := List.mem_map.mp hx
        rw [if_neg]
        intro hcon
        have : r = k2 := by simpa using hcon
        exact hk (this ▸ hk2)
      rw [if_pos (by simp : (r == r) = true), hz]
    · rw [if_neg (by simpa using hr)]
      simpa using ih hks

/-- The number of cards of a given rank key. -/
def rankCount (cards : List ECard) (k : String) : Nat :=
  (cards.filter (fun c => c.rank == k)).length

theorem filter_count_sum_le (keys : List String) (hnd : keys.Nodup) :
    ∀ (cards : List ECard), (keys.map (rankCount cards)).sum ≤ cards.length := by
  intro cards
  induction cards with
  | nil =>
    have hz : ∀ x ∈ keys.map (rankCount []), x = 0 := by
      intro x hx
      obtain ⟨k, hk, rfl⟩ := List.mem_map.mp hx
      rfl
    simp [List.sum_eq_zero hz]
  | cons c cs ih =>
    have hsplit : (keys.map (rankCount (c :: cs))).sum
        = (keys.map (fun k => (if c.rank == k then (1 : Nat) else 0) + rankCount cs k)).sum := by
      congr 1
      apply List.map_congr_left
      intro k hk
      unfold rankCount
      rw [List.filter_cons]
      split
      · simp only [List.length_cons]; omega
      · simp
    rw [hsplit, sum_map_add_nat]
    have := sum_map_indicator_le_one c.rank keys hnd
    simp only [List.length_cons]
    omega

theorem sum_map_erase_str (f : String → Nat) {l : List String} {a : String} (h : a ∈ l) :
    (l.map f).sum = f a + ((l.erase a).map f).sum := by
  have hperm := List.perm_cons_erase h
  have := List.Perm.sum_eq (hperm.map f)
  simpa using this

theorem length_le_sum_of_one_le (f : String → Nat) (l : List String)
    (h : ∀ x ∈ l, 1 ≤ f x) : l.length ≤ (l.map f).sum := by
  induction l with
  | nil => simp
  | cons a as ih =>
    simp only [List.length_cons, List.map_cons, List.sum_cons]
    have h1 := h a (List.mem_cons_self a as)
    have h2 := ih (fun x hx => h x (List.mem_cons_of_mem a hx))
    omega

def requiredRanks : List String := ["A", "2", "3", "4", "5"]

/-- With at most 7 cards whose ranks include A, 2, 3, 4 and 5, no rank occurs
four times, and if some rank occurs exactly three times then every other rank
occurs at most once. -/
theorem rank_counts {cards : List ECard} (hlen : cards.length ≤ 7)
    (hA : ∃ c ∈ cards, c.rank = "A") (h2p : ∃ c ∈ cards, c.rank = "2")
    (h3p : ∃ c ∈ cards, c.rank = "3") (h4p : ∃ c ∈ cards, c.rank = "4")
    (h5p : ∃ c ∈ cards, c.rank = "5") :
    (∀ k, rankCount cards k ≠ 4) ∧
    (∀ k k2, k ≠ k2 → rankCount cards k = 3 → rankCount cards k2 < 2) := by
  have hone : ∀ x ∈ requiredRanks, 1 ≤ rankCount cards x := by
    intro x hx
    have hpres : ∃ c ∈ cards, c.rank = x := by
      simp only [requiredRanks, List.mem_cons, List.not_mem_nil, or_false] at hx
      rcases hx with rfl | rfl | rfl | rfl | rfl
      exacts [hA, h2p, h3p, h4p, h5p]
    obtain ⟨c, hc, hrank⟩ := hpres
    have hmem : c ∈ cards.filter (fun c => c.rank == x) :=
      List.mem_filter.mpr ⟨hc, by simp [hrank]⟩
    have := List.length_pos.mpr (List.ne_nil_of_mem hmem)
    simpa [rankCount] using this
  have hRsum : (requiredRanks.map (rankCount cards)).sum ≤ 7 :=
    le_trans (filter_count_sum_le requiredRanks (by decide) cards) hlen
  have hRge : 5 ≤ (requiredRanks.map (rankCount cards)).sum := by
    have := length_le_sum_of_one_le (rankCount cards) requiredRanks hone
    simpa [requiredRanks] using this
  have hout : ∀ k, k ∉ requiredRanks →
      rankCount cards k + (requiredRanks.map (rankCount cards)).sum ≤ 7 := by
    intro k hk
    have hnd : (k :: requiredRanks).Nodup := List.nodup_cons.mpr ⟨hk, by decide⟩
    have := filter_count_sum_le (k :: requiredRanks) hnd cards
    simp only [List.map_cons, List.sum_cons] at this
    omega
  constructor
  · intro k hcon
    by_cases hk : k ∈ requiredRanks
    · have hsplit := sum_map_erase_str (rankCount cards) hk
      have helen : (requiredRanks.erase k).length = 4 := by
        rw [List.length_erase_of_mem hk]; rfl
      have hege : 4 ≤ ((requiredRanks.erase k).map (rankCount cards)).sum := by
        have := length_le_sum_of_one_le (rankCount cards) (requiredRanks.erase k)
          (fun x hx => hone x (List.mem_of_mem_erase hx))
        omega
      omega
    · have := hout k hk
      omega
  · intro k k2 hne h3eq
    by_contra hcon
    push_neg at hcon
    by_cases hk : k ∈ requiredRanks
    · by_cases hk2 : k2 ∈ requiredRanks
      · have hsplit := sum_map_erase_str (rankCount cards) hk
        have hk2e : k2 ∈ requiredRanks.erase k := (List.mem_erase_of_ne (Ne.symm hne)).mpr hk2
        have hsplit2 := sum_map_erase_str (rankCount cards) hk2e
        have helen : ((requiredRanks.erase k).erase k2).length = 3 := by
          rw [List.length_erase_of_mem hk2e, List.length_erase_of_mem hk]; rfl
        have hege : 3 ≤ (((requiredRanks.erase k).erase k2).map (rankCount cards)).sum := by
          have := length_le_sum_of_one_le (rankCount cards) ((requiredRanks.erase k).erase k2)
            (fun x hx => hone x (List.mem_of_mem_erase (List.mem_of_mem_erase hx)))
          omega
        omega
      · have houtk2 := hout k2 hk2
        have hsplit := sum_map_erase_str (rankCount cards) hk
        have helen : (requiredRanks.erase k).length = 4 := by
          rw [List.length_erase_of_mem hk]; rfl
        have hege : 4 ≤ ((requiredRanks.erase k).map (rankCount cards)).sum := by
          have := length_le_sum_of_one_le (rankCount cards) (requiredRanks.erase k)
            (fun x hx => hone x (List.mem_of_mem_erase hx))
          omega
        omega
    · have := hout k hk
      omega

theorem straightWindows_spec : ∀ (l w : List Int), straightWindows l = some w →
    (∀ v ∈ w, v ∈ l) ∧ w.length = 5 ∧ isConsecutive w = true := by
  intro l
  induction l with
  | nil => intro w h; simp [straightWindows] at h
  | cons v rest ih =>
    intro w h
    unfold straightWindows at h
    split at h
    · simp at h
    · split at h
      · rename_i hlen hcons
        cases h
        refine ⟨fun u hu => List.mem_of_mem_take hu, ?_, hcons⟩
        rw [List.length_take]
        simp only [List.length_cons] at hlen ⊢
        omega
      · obtain ⟨hsub, hlen5, hcons⟩ := ih w h
        exact ⟨fun u hu => List.mem_cons_of_mem v (hsub u hu), hlen5, hcons⟩

theorem consecutive_five : ∀ (w : List Int), w.length = 5 → isConsecutive w = true →
    ∃ a, w = [a, a - 1, a - 2, a - 3, a - 4]
  | [], h, _ => by simp at h
  | [_], h, _ => by simp at h
  | [_, _], h, _ => by simp at h
  | [_, _, _], h, _ => by simp at h
  | [_, _, _, _], h, _ => by simp at h
  | _ :: _ :: _ :: _ :: _ :: _ :: _, h, _ => by simp at h
  | [a, b, c, d, e], _, hc => by
    simp only [isConsecutive, Bool.and_eq_true, beq_iff_eq] at hc
    obtain ⟨h1, h2, h3, h4, -⟩ := hc
    refine ⟨a, ?_⟩
    simp only [List.cons.injEq, and_true]
    exact ⟨trivial, by omega, by omega, by omega, by omega⟩

/-- The list of valid rank strings. -/
def rankList : List String :=
  ["2", "3", "4", "5", "6", "7", "8", "9", "10", "J", "Q", "K", "A"]

theorem getRankValue_bounds : ∀ r ∈ rankList, 2 ≤ getRankValue r ∧ getRankValue r ≤ 14 := by
  decide

theorem checkFlush_none {cards : List ECard}
    (h : ∀ e ∈ cards, (cards.filter (fun d => d.suit == e.suit)).length < 5) :
    checkFlush cards = none := by
  have hnone : (entriesOf (groupBySuit cards)).find? (fun e => decide (5 ≤ e.2.length))
      = none := by
    rw [List.find?_eq_none]
    intro e he
    have hfe := groupBy_filter (fun c => c.suit) cards e (mem_entriesOf he)
    dsimp only at hfe
    simp only [decide_eq_true_eq]
    intro hge
    have hne : e.2 ≠ [] := by
      intro hnil
      rw [hnil] at hge
      simp at hge
    obtain ⟨d, hd⟩ := List.exists_mem_of_ne_nil e.2 hne
    have hdm := hd
    rw [hfe] at hdm
    obtain ⟨hdc, hds⟩ := List.mem_filter.mp hdm
    have hsuit : d.suit = e.1 := by simpa using hds
    have hlt := h d hdc
    rw [hsuit] at hlt
    rw [hfe] at hge
    omega
  unfold checkFlush
  rw [hnone]

theorem checkStraightFlush_none {cards : List ECard} (h : checkFlush cards = none) :
    checkStraightFlush cards = none := by
  unfold checkStraightFlush
  rw [h]

theorem checkRoyalFlush_none {cards : List ECard} (h : checkFlush cards = none) :
    checkRoyalFlush cards = none := by
  unfold checkRoyalFlush
  rw [checkStraightFlush_none h]

theorem checkFourOfAKind_none {cards : List ECard}
    (h : ∀ k, rankCount cards k ≠ 4) : checkFourOfAKind cards = none := by
  have hnone : (entriesOf (groupByRank cards)).find? (fun e => e.2.length == 4) = none := by
    rw [List.find?_eq_none]
    intro e he
    have hfe := groupBy_filter (fun c => c.rank) cards e (mem_entriesOf he)
    dsimp only at hfe
    simp only [beq_iff_eq]
    intro hcon
    apply h e.1
    rw [← hcon, rankCount, ← hfe]
  unfold checkFourOfAKind
  rw [hnone]

theorem checkFullHouse_none {cards : List ECard}
    (h : ∀ k k2, k ≠ k2 → rankCount cards k = 3 → rankCount cards k2 < 2) :
    checkFullHouse cards = none := by
  unfold checkFullHouse
  dsimp only
  cases h3 : (entriesOf (groupByRank cards)).find? (fun e => e.2.length == 3) with
  | none => rfl
  | some t =>
    cases hp : (entriesOf (groupByRank cards)).find? (fun e =>
        decide (2 ≤ e.2.length) && match some t with
                                   | some t => e.1 != t.1
                                   | none => true) with
    | none => rfl
    | some p =>
      exfalso
      have ht3 : t.2.length = 3 := by simpa using List.find?_some h3
      have htmem := groupBy_filter (fun c => c.rank) cards t
        (mem_entriesOf (List.mem_of_find?_eq_some h3))
      dsimp only at htmem
      have hps := List.find?_some hp
      simp only [Bool.and_eq_true, decide_eq_true_eq, bne_iff_ne] at hps
      obtain ⟨hp2, hpne⟩ := hps
      have hpmem := groupBy_filter (fun c => c.rank) cards p
        (mem_entriesOf (List.mem_of_find?_eq_some hp))
      dsimp only at hpmem
      have htc : rankCount cards t.1 = 3 := by rw [rankCount, ← htmem]; exact ht3
      have hpc : 2 ≤ rankCount cards p.1 := by rw [rankCount, ← hpmem]; exact hp2
      have := h t.1 p.1 (Ne.symm hpne) htc
      omega

theorem checkStraight_wheel (cards : List ECard)
    (hvals : ∀ e ∈ cards, 2 ≤ e.value ∧ e.value ≤ 14)
    (h14 : ∃ e ∈ cards, e.value = 14) (h5v : ∃ e ∈ cards, e.value = 5)
    (h4v : ∃ e ∈ cards, e.value = 4) (h3v : ∃ e ∈ cards, e.value = 3)
    (h2v : ∃ e ∈ cards, e.value = 2)
    (hnos : ∀ v : Int, 6 ≤ v → v ≤ 14 →
      ¬ (∀ j : Nat, j < 5 → ∃ e ∈ cards, e.value = v - (j : Int))) :
    ∃ cs, checkStraight cards = some ⟨"Straight", 4000 + 5, cs⟩ := by
  have huv : ∀ v : Int,
      v ∈ sortDescBy (fun v => v) (dedupFirst (cards.map (fun c => c.value))) ↔
        ∃ e ∈ cards, e.value = v := by
    intro v
    rw [mem_sortDescBy, mem_dedupFirst]
    constructor
    · intro h
      obtain ⟨e, he, hev⟩ := List.mem_map.mp h
      exact ⟨e, he, hev⟩
    · rintro ⟨e, he, hev⟩
      exact List.mem_map.mpr ⟨e, he, hev⟩
  have hwin : straightWindows
      (sortDescBy (fun v => v) (dedupFirst (cards.map (fun c => c.value)))) = none := by
    cases hw : straightWindows
        (sortDescBy (fun v => v) (dedupFirst (cards.map (fun c => c.value)))) with
    | none => rfl
    | some w =>
      exfalso
      obtain ⟨hsub, hlen5, hcons⟩ := straightWindows_spec _ w hw
      obtain ⟨a, rfl⟩ := consecutive_five w hlen5 hcons
      have hmem : ∀ j : Nat, j < 5 → ∃ e ∈ cards, e.value = a - (j : Int) := by
        intro j hj
        refine (huv _).mp (hsub _ ?_)
        interval_cases j <;> simp
      have ha14 : a ≤ 14 := by
        obtain ⟨e, he, hev⟩ := (huv a).mp (hsub a (by simp))
        have := (hvals e he).2
        omega
      have ha6 : 6 ≤ a := by
        obtain ⟨e, he, hev⟩ := hmem 4 (by omega)
        have := (hvals e he).1
        omega
      exact hnos a ha6 ha14 hmem
  unfold checkStraight
  dsimp only
  rw [hwin]
  have hcont : ∀ v : Int, (∃ e ∈ cards, e.value = v) →
      (sortDescBy (fun v => v) (dedupFirst (cards.map (fun c => c.value)))).contains v
        = true := by
    intro v hv
    exact List.elem_iff.mpr ((huv v).mpr hv)
  rw [if_pos (by
    rw [hcont 14 h14, hcont 5 h5v, hcont 4 h4v, hcont 3 h3v, hcont 2 h2v]
    rfl)]
  exact ⟨_, rfl⟩

theorem s_filter_suit_length (allCards : List Card) (k : String) :
    ((sortDescBy (fun c => c.value) (allCards.map toECard)).filter
      (fun d => d.suit == k)).length = (allCards.filter (fun c => c.suit == k)).length := by
  have hperm := (perm_sortDescBy (fun c : ECard => c.value) (allCards.map toECard)).filter
    (fun d => d.suit == k)
  rw [hperm.length_eq, List.filter_map, List.length_map]
  congr 1

theorem s_rankCount (allCards : List Card) (k : String) :
    rankCount (sortDescBy (fun c => c.value) (allCards.map toECard)) k
      = (allCards.filter (fun c => c.rank == k)).length := by
  unfold rankCount
  have hperm := (perm_sortDescBy (fun c : ECard => c.value) (allCards.map toECard)).filter
    (fun d => d.rank == k)
  rw [hperm.length_eq, List.filter_map, List.length_map]
  congr 1

/-- C9: on any 5-to-7-card input whose ranks include A, 2, 3, 4 and 5 (valid
ranks throughout), with no six-or-higher straight and no flush present,
`evaluateHand` recognizes the wheel as a Straight scoring 4005 — strictly
below the 4006 of a 6-high straight and different from the 4014 of an
ace-high straight. -/
theorem c9_wheel_straight (hole board : List Card)
    (hlen5 : 5 ≤ (hole ++ board).length) (hlen7 : (hole ++ board).length ≤ 7)
    (hvalid : ∀ c ∈ hole ++ board, c.rank ∈ rankList)
    (hAr : ∃ c ∈ hole ++ board, c.rank = "A")
    (h2r : ∃ c ∈ hole ++ board, c.rank = "2")
    (h3r : ∃ c ∈ hole ++ board, c.rank = "3")
    (h4r : ∃ c ∈ hole ++ board, c.rank = "4")
    (h5r : ∃ c ∈ hole ++ board, c.rank = "5")
    (hnostraight : ∀ vn : Nat, 6 ≤ vn → vn ≤ 14 →
      ((List.range 5).all (fun j =>
        (hole ++ board).any (fun c => getRankValue c.rank == (vn : Int) - (j : Int)))) = false)
    (hnoflush : ∀ c ∈ hole ++ board,
      ((hole ++ board).filter (fun d => d.suit == c.suit)).length < 5) :
    (evaluateHand hole board).map (fun hv => (hv.name, hv.score))
      = some ("Straight", 4005) ∧
    (evaluateHand [⟨"6", "hearts"⟩, ⟨"2", "diamonds"⟩]
        [⟨"3", "clubs"⟩, ⟨"4", "spades"⟩, ⟨"5", "hearts"⟩, ⟨"9", "diamonds"⟩,
         ⟨"K", "clubs"⟩]).map (fun hv => (hv.name, hv.score)) = some ("Straight", 4006) ∧
    ((4005 : Int) < 4006) ∧
    (evaluateHand [⟨"A", "hearts"⟩, ⟨"K", "diamonds"⟩]
        [⟨"Q", "clubs"⟩, ⟨"J", "spades"⟩, ⟨"10", "hearts"⟩, ⟨"2", "diamonds"⟩,
         ⟨"3", "clubs"⟩]).map (fun hv => (hv.name, hv.score)) = some ("Straight", 4014) ∧
    ((4005 : Int) ≠ 4014) := by
  refine ⟨?_, by decide, by norm_num, by decide, by norm_num⟩
  unfold evaluateHand
  rw [if_neg (by omega)]
  dsimp only
  set s := sortDescBy (fun c => c.value) ((hole ++ board).map toECard) with hs
  have hsmem : ∀ e ∈ s, ∃ c ∈ hole ++ board, toECard c = e := by
    intro e he
    rw [hs, mem_sortDescBy] at he
    exact List.mem_map.mp he
  have hsmem2 : ∀ c ∈ hole ++ board, toECard c ∈ s := by
    intro c hc
    rw [hs, mem_sortDescBy]
    exact List.mem_map_of_mem toECard hc
  have hflush : checkFlush s = none := by
    apply checkFlush_none
    intro e he
    obtain ⟨c, hc, rfl⟩ := hsmem e he
    have := hnoflush c hc
    rw [hs]
    rw [s_filter_suit_length (hole ++ board) (toECard c).suit]
    exact this
  have hslen : s.length ≤ 7 := by
    rw [hs, length_sortDescBy, List.length_map]
    exact hlen7
  have hpres : ∀ r : String, (∃ c ∈ hole ++ board, c.rank = r) →
      ∃ e ∈ s, e.rank = r := by
    rintro r ⟨c, hc, hrank⟩
    exact ⟨toECard c, hsmem2 c hc, hrank⟩
  obtain ⟨hq, hfhc⟩ := rank_counts hslen (hpres "A" hAr) (hpres "2" h2r)
    (hpres "3" h3r) (hpres "4" h4r) (hpres "5" h5r)
  have hquads : checkFourOfAKind s = none := checkFourOfAKind_none hq
  have hfh : checkFullHouse s = none := checkFullHouse_none hfhc
  have hsf : checkStraightFlush s = none := checkStraightFlush_none hflush
  have hroyal : checkRoyalFlush s = none := checkRoyalFlush_none hflush
  have hvalpres : ∀ r : String, (∃ c ∈ hole ++ board, c.rank = r) →
      ∃ e ∈ s, e.value = getRankValue r := by
    rintro r ⟨c, hc, hrank⟩
    exact ⟨toECard c, hsmem2 c hc, by simp [toECard, hrank]⟩
  obtain ⟨cs, hstraight⟩ := checkStraight_wheel s
    (by
      intro e he
      obtain ⟨c, hc, rfl⟩ := hsmem e he
      exact getRankValue_bounds c.rank (hvalid c hc))
    (by simpa using hvalpres "A" hAr)
    (by simpa using hvalpres "5" h5r)
    (by simpa using hvalpres "4" h4r)
    (by simpa using hvalpres "3" h3r)
    (by simpa using hvalpres "2" h2r)
    (by
      intro v h6 h14 hcon
      have hv0 : 0 ≤ v := by omega
      have hvt : ((v.toNat : Int)) = v := Int.toNat_of_nonneg hv0
      have h6t : 6 ≤ v.toNat := by omega
      have h14t : v.toNat ≤ 14 := by omega
      have hfalse := hnostraight v.toNat h6t h14t
      have htrue : ((List.range 5).all (fun j =>
          (hole ++ board).any
            (fun c => getRankValue c.rank == ((v.toNat : Nat) : Int) - (j : Int)))) = true := by
        rw [List.all_eq_true]
        intro j hj
        have hjlt : j < 5 := List.mem_range.mp hj
        obtain ⟨e, he, hev⟩ := hcon j hjlt
        obtain ⟨c, hc, rfl⟩ := hsmem e he
        rw [List.any_eq_true]
        refine ⟨c, hc, ?_⟩
        have : getRankValue c.rank = v - (j : Int) := hev
        rw [beq_iff_eq, this, hvt]
      rw [hfalse] at htrue
      exact Bool.false_ne_true htrue)
  rw [hroyal, hsf, hquads, hfh, hflush, hstraight]
  simp [Option.orElse]

/-- C9 witness: hole A♥2♣ on board 3♦4♠5♥9♣K♦ — the wheel with no flush and
no higher straight — evaluates to a 5-high Straight scoring 4005. -/
theorem c9_wheel_witness :
    (evaluateHand [⟨"A", "hearts"⟩, ⟨"2", "clubs"⟩]
        [⟨"3", "diamonds"⟩, ⟨"4", "spades"⟩, ⟨"5", "hearts"⟩, ⟨"9", "clubs"⟩,
         ⟨"K", "diamonds"⟩]).map (fun hv => (hv.name, hv.score))
      = some ("Straight", 4005) ∧
    (evaluateHand [⟨"6", "hearts"⟩, ⟨"2", "diamonds"⟩]
        [⟨"3", "clubs"⟩, ⟨"4", "spades"⟩, ⟨"5", "hearts"⟩, ⟨"9", "diamonds"⟩,
         ⟨"K", "clubs"⟩]).map (fun hv => (hv.name, hv.score)) = some ("Straight", 4006) ∧
    ((4005 : Int) < 4006) ∧
    (evaluateHand [⟨"A", "hearts"⟩, ⟨"K", "diamonds"⟩]
        [⟨"Q", "clubs"⟩, ⟨"J", "spades"⟩, ⟨"10", "hearts"⟩, ⟨"2", "diamonds"⟩,
         ⟨"3", "clubs"⟩]).map (fun hv => (hv.name, hv.score)) = some ("Straight", 4014) ∧
    ((4005 : Int) ≠ 4014) :=
  c9_wheel_straight [⟨"A", "hearts"⟩, ⟨"2", "clubs"⟩]
    [⟨"3", "diamonds"⟩, ⟨"4", "spades"⟩, ⟨"5", "hearts"⟩, ⟨"9", "clubs"⟩, ⟨"K", "diamonds"⟩]
    (by decide) (by decide) (by decide) (by decide) (by decide) (by decide) (by decide)
    (by decide) (by decide) (by decide)

end GamblingBack
